import Mathlib

/-!
# git-remarks: remark store and continuity engine

A shallow embedding of the Go packages `internal/remark`, `internal/git` and
`internal/store`, followed by theorems about them.

Conventions of the embedding:

* a Go `string` is a Lean `String`; a Go `error` is the `String` of its
  `Error()` text, and a `(T, error)` result is an `Except String T`;
* the `git` executable is outside the program.  For the notes channel it is
  modelled as a keyed text store (`Repo`) that records every invocation and can
  be told to fail at chosen invocations, and that cleans the text of a note as
  `git notes add` does; read-only graph queries are passed in as functions;
* the YAML library is outside the program and is passed in as a pair of
  functions (`Env.marshal`, `Env.unmarshal`).
-/

namespace GitRemarks

/-! ## Go standard library: `strings` -/

/-- Go `unicode.IsSpace`. -/
def isSpace (c : Char) : Bool :=
  c = '\t' || c = '\n' || c = '\x0b' || c = '\x0c' || c = '\r' || c = ' ' ||
  c.toNat = 0x85 || c.toNat = 0xA0 || c.toNat = 0x1680 ||
  (0x2000 ≤ c.toNat && c.toNat ≤ 0x200A) ||
  c.toNat = 0x2028 || c.toNat = 0x2029 || c.toNat = 0x202F ||
  c.toNat = 0x205F || c.toNat = 0x3000

/-- Go `strings.TrimSpace`. -/
def TrimSpace (s : String) : String :=
  ⟨((s.data.dropWhile isSpace).reverse.dropWhile isSpace).reverse⟩

/-- Go `strings.ToLower`, on the ASCII letters.  The only text ever searched
for in a lowered string is `no note found`; no character outside ASCII lowers
to one of its letters, so the search result is the one Go computes. -/
def ToLower (s : String) : String :=
  ⟨s.data.map Char.toLower⟩

/-- Substring search on character lists. -/
def containsChars (sub : List Char) : List Char → Bool
  | [] => sub.isEmpty
  | c :: cs => sub.isPrefixOf (c :: cs) || containsChars sub cs

/-- Go `strings.Contains`. -/
def Contains (s substr : String) : Bool :=
  containsChars substr.data s.data

/-- Go `strings.Join`. -/
def Join : List String → String → String
  | [], _ => ""
  | [a], _ => a
  | a :: b :: rest, sep => a ++ sep ++ Join (b :: rest) sep

/-- The loop of `Split`: `cur` is the piece being read. -/
def splitLoop (sep : Char) : List Char → List Char → List String
  | [], cur => [⟨cur⟩]
  | c :: cs, cur =>
    if c = sep then ⟨cur⟩ :: splitLoop sep cs [] else splitLoop sep cs (cur ++ [c])

/-- Go `strings.Split` for a separator of one character, the only kind the
program uses. -/
def Split (s : String) (sep : Char) : List String :=
  splitLoop sep s.data []

/-- The loop of `Fields`: `cur` is the field being read. -/
def fieldsLoop : List Char → List Char → List String
  | [], cur => if cur = [] then [] else [⟨cur⟩]
  | c :: cs, cur =>
    if isSpace c then
      if cur = [] then fieldsLoop cs [] else ⟨cur⟩ :: fieldsLoop cs []
    else fieldsLoop cs (cur ++ [c])

/-- Go `strings.Fields`. -/
def Fields (s : String) : List String :=
  fieldsLoop s.data []

/-- Go conversion of an `int` to `rune` (`int32`): the low 32 bits, signed. -/
def toRune (n : Int) : Int :=
  (n + 2147483648) % 4294967296 - 2147483648

/-- Go conversion `string(r)` of a rune: the text of that one code point, and
of U+FFFD when `r` is not a valid code point. -/
def runeString (r : Int) : String :=
  if (0 ≤ r ∧ r < 0xD800) ∨ (0xE000 ≤ r ∧ r ≤ 0x10FFFF) then
    String.singleton (Char.ofNat r.toNat)
  else String.singleton (Char.ofNat 0xFFFD)

/-- Go `strings.HasPrefix`. -/
def HasPrefix (s pre : String) : Bool :=
  pre.data.isPrefixOf s.data

/-- The loop of `SplitN`: `k` further cuts are allowed, `cur` is the piece
being read. -/
def splitNLoop (sep : Char) : Nat → List Char → List Char → List String
  | 0, cs, cur => [⟨cur ++ cs⟩]
  | _ + 1, [], cur => [⟨cur⟩]
  | k + 1, c :: cs, cur =>
    if c = sep then ⟨cur⟩ :: splitNLoop sep k cs [] else splitNLoop sep (k + 1) cs (cur ++ [c])

/-- Go `strings.SplitN` for a separator of one character and a count `n ≥ 0`:
at most `n` pieces, the last one being the unsplit rest. -/
def SplitN (s : String) (sep : Char) (n : Nat) : List String :=
  match n with
  | 0 => []
  | k + 1 => splitNLoop sep k s.data []

/-- The characters of a text that lie wholly within its first `n` bytes. -/
def takeBytes : Nat → List Char → List Char
  | _, [] => []
  | n, c :: cs => if c.utf8Size ≤ n then c :: takeBytes (n - c.utf8Size) cs else []

/-- Go `s[:n]` on a string, whose length is counted in bytes: `none` is the
run-time panic `slice bounds out of range`.  A cut inside a character of
several bytes keeps the characters before it. -/
def sliceTo (s : String) (n : Nat) : Option String :=
  if n ≤ s.utf8ByteSize then some ⟨takeBytes n s.data⟩ else none

/-! ## Package `remark` -/

/-- The string type `remark.Type`. -/
abbrev RemarkType := String

def TypeThought : RemarkType := "thought"
def TypeDoubt : RemarkType := "doubt"
def TypeTodo : RemarkType := "todo"
def TypeDecision : RemarkType := "decision"

/-- The string type `remark.State`. -/
abbrev RemarkState := String

def StateActive : RemarkState := "active"
def StateResolved : RemarkState := "resolved"

/-- The struct `remark.Remark`.  `Typ` is the field `Type`; `CreatedAt` is the
instant in nanoseconds since the Unix epoch. -/
structure Remark where
  ID : String
  Typ : RemarkType
  Branch : String
  State : RemarkState
  CreatedAt : Int
  Body : String
  deriving DecidableEq, Repr

/-- The struct `remark.Remarks`: the remarks on a single commit.  `items` is
the field `Remarks`. -/
structure Remarks where
  items : List Remark
  deriving DecidableEq, Repr

/-- The parts of the environment that are not code of the program: the YAML
library applied to `Remarks` (`yaml.Marshal`, `yaml.Unmarshal`), and the text
`git` prints on standard error when asked to show (`showMissing`), or to remove
(`removeMissing`), the note of an object that has none. -/
structure Env where
  marshal : Remarks → Except String String
  unmarshal : String → Except String Remarks
  showMissing : String → String
  removeMissing : String → String

/-- `remark.ParseRemarks`. -/
def ParseRemarks (E : Env) (data : String) : Except String Remarks :=
  if data.length = 0 then .ok ⟨[]⟩
  else E.unmarshal data

/-- `(*Remarks).Marshal`. -/
def Remarks.Marshal (E : Env) (r : Remarks) : Except String String :=
  E.marshal r

/-- `(*Remarks).Add`. -/
def Remarks.Add (r : Remarks) (remark : Remark) : Remarks :=
  ⟨r.items ++ [remark]⟩

/-- `(*Remarks).Merge`; `none` is the nil pointer. -/
def Remarks.Merge (r : Remarks) (other : Option Remarks) : Remarks :=
  match other with
  | none => r
  | some o => ⟨r.items ++ o.items⟩

/-- `(*Remarks).FindByID`: the index of the entry the returned pointer refers
to, `none` for the nil pointer. -/
def Remarks.FindByID (r : Remarks) (id : String) : Option Nat :=
  let rec loop : List Remark → Nat → Option Nat
    | [], _ => none
    | x :: xs, i => if x.ID = id then some i else loop xs (i + 1)
  loop r.items 0

/-- `(*Remarks).RemoveByID`: the receiver afterwards and the returned flag. -/
def Remarks.RemoveByID (r : Remarks) (id : String) : Remarks × Bool :=
  let rec loop : List Remark → Nat → Remarks × Bool
    | [], _ => (r, false)
    | x :: xs, i =>
      if x.ID = id then (⟨r.items.take i ++ r.items.drop (i + 1)⟩, true)
      else loop xs (i + 1)
  loop r.items 0

/-- `(*Remarks).ActiveForBranch`: the loop appends each selected remark to
`result`. -/
def Remarks.ActiveForBranch (r : Remarks) (branch : String) : List Remark :=
  let rec loop : List Remark → List Remark → List Remark
    | [], result => result
    | remark :: rest, result =>
      if remark.State = StateActive ∧ remark.Branch = branch then
        loop rest (result ++ [remark])
      else loop rest result
  loop r.items []

/-- `(*Remarks).IsEmpty`. -/
def Remarks.IsEmpty (r : Remarks) : Bool :=
  r.items.length = 0

/-- `remark.ValidateType`. -/
def ValidateType (t : String) : Bool :=
  if t = TypeThought ∨ t = TypeDoubt ∨ t = TypeTodo ∨ t = TypeDecision then true
  else false

/-- `remark.NewRemark`: `id` is the value of `generateShortUUID()` and `now`
that of `time.Now().UTC()`. -/
def NewRemark (id : String) (now : Int) (remarkType : RemarkType) (branch body : String) :
    Remark :=
  ⟨id, remarkType, branch, StateActive, now, body⟩

/-! ## The external `git` process, notes channel -/

/-- The constant `git.NotesRef`. -/
def NotesRef : String := "remarks"

/-- A failure of a `git` process for a reason outside the program: what it
wrote to standard error, and the text of the error `cmd.Run()` returns. -/
structure Fault where
  stderr : String
  err : String
  deriving DecidableEq, Repr

/-- The repository as the store sees it: the note text attached to each
object under the remarks ref, the outcome planned for each coming `git`
invocation (`none`: it runs normally; a schedule that has run out: normally),
and the argument lists of the invocations made so far. -/
structure Repo where
  notes : List (String × String)
  faults : List (Option Fault)
  trace : List (List String)
  deriving DecidableEq, Repr

/-- The note text attached to an object, if any. -/
def noteAt (notes : List (String × String)) (commit : String) : Option String :=
  match notes with
  | [] => none
  | (k, v) :: rest => if k = commit then some v else noteAt rest commit

/-- Attach a note text to an object, replacing the one it has. -/
def setNote (notes : List (String × String)) (commit text : String) :
    List (String × String) :=
  match notes with
  | [] => [(commit, text)]
  | (k, v) :: rest =>
    if k = commit then (commit, text) :: rest else (k, v) :: setNote rest commit text

/-- Detach the note of an object. -/
def dropNote (notes : List (String × String)) (commit : String) :
    List (String × String) :=
  match notes with
  | [] => []
  | (k, v) :: rest => if k = commit then dropNote rest commit else (k, v) :: dropNote rest commit

/-- What a finished process leaves: its two output streams and the error of
`cmd.Run()` (`none` for exit status 0). -/
structure Proc where
  stdout : String
  stderr : String
  err : Option String
  deriving DecidableEq, Repr

/-- The name of a note object in the output of `git notes list`.  The program
reads only the second field of each line, so one name stands for all. -/
def noteObject : String := "0000000000000000000000000000000000000000"

/-- The output of `git notes list`: one line `<note-object> <annotated-object>`
for each note. -/
def listing : List (String × String) → String
  | [] => ""
  | (k, _) :: rest => noteObject ++ " " ++ k ++ "\n" ++ listing rest

/-- The white space of `git` (`isspace` of its `sane_ctype`): space, tab,
line feed and carriage return. -/
def gitSpace (c : Char) : Bool :=
  c = ' ' || c = '\t' || c = '\n' || c = '\r'

/-- The function `cleanup` of `git`: a line without its trailing white space. -/
def cleanup (line : List Char) : List Char :=
  (line.reverse.dropWhile gitSpace).reverse

/-- One step of `strbuf_stripspace` at the end of a line: a line that is empty
after `cleanup` is counted, any other is kept, after a single empty line when
empty lines were counted since the last line kept. -/
def stripspace.step (cur : List Char) (empties : Nat) (out : List Char) : Nat × List Char :=
  if cleanup cur = [] then (empties + 1, out)
  else if 0 < empties ∧ out ≠ [] then (0, out ++ '\n' :: cleanup cur ++ ['\n'])
  else (0, out ++ cleanup cur ++ ['\n'])

/-- The loop of `strbuf_stripspace` over the characters: `cur` is the line
being read, `empties` the count of empty lines since the last line kept, `out`
the text kept so far. -/
def stripspace.loop : List Char → List Char → Nat → List Char → List Char
  | [], cur, empties, out => (stripspace.step cur empties out).2
  | c :: cs, cur, empties, out =>
    if c = '\n' then
      stripspace.loop cs [] (stripspace.step cur empties out).1
        (stripspace.step cur empties out).2
    else stripspace.loop cs (cur ++ [c]) empties out

/-- The clean-up `git notes add` applies to the text of a note
(`strbuf_stripspace` without a comment character): trailing white space of
every line dropped, empty lines at both ends dropped, runs of empty lines
reduced to one, and every line ended by a line feed. -/
def stripspace (text : String) : String :=
  ⟨stripspace.loop text.data [] 0 []⟩

/-- The notes after `git notes add -f -F -` of a text: the note of the object
is the cleaned text, and no note at all when the cleaned text is empty. -/
def addNote (notes : List (String × String)) (commit stdin : String) :
    List (String × String) :=
  if stripspace stdin = "" then dropNote notes commit
  else setNote notes commit (stripspace stdin)

/-- The four `git notes` commands the store issues, run without outside
failure on the notes of the repository: `show` prints the note, `add -f -F -`
attaches the text read from standard input, cleaned, in place of any note
present, `remove` detaches the note, and `list` prints the listing; `show` and
`remove` fail on an object without a note, with the complaint the environment
gives.  Any other command line fails. -/
def gitNotes (E : Env) (stdin : String) (args : List String)
    (notes : List (String × String)) : Proc × List (String × String) :=
  match args with
  | [a0, a1, a2] =>
    if a0 = "notes" ∧ a1 = "--ref=remarks" ∧ a2 = "list" then
      (⟨listing notes, "", none⟩, notes)
    else (⟨"", "", some "exit status 129"⟩, notes)
  | [a0, a1, a2, commit] =>
    if a0 = "notes" ∧ a1 = "--ref=remarks" ∧ a2 = "show" then
      match noteAt notes commit with
      | some text => (⟨text, "", none⟩, notes)
      | none => (⟨"", E.showMissing commit, some "exit status 1"⟩, notes)
    else if a0 = "notes" ∧ a1 = "--ref=remarks" ∧ a2 = "remove" then
      match noteAt notes commit with
      | some _ => (⟨"", "", none⟩, dropNote notes commit)
      | none => (⟨"", E.removeMissing commit, some "exit status 1"⟩, notes)
    else (⟨"", "", some "exit status 129"⟩, notes)
  | [a0, a1, a2, a3, a4, a5, commit] =>
    if a0 = "notes" ∧ a1 = "--ref=remarks" ∧ a2 = "add" ∧ a3 = "-f" ∧ a4 = "-F" ∧ a5 = "-" then
      (⟨"", "", none⟩, addNote notes commit stdin)
    else (⟨"", "", some "exit status 129"⟩, notes)
  | _ => (⟨"", "", some "exit status 129"⟩, notes)

/-- One `exec.Command("git", args...).Run()`: the invocation is recorded, the
next planned outcome is consumed, and a planned failure leaves the notes as
they are. -/
def execGit (E : Env) (stdin : String) (args : List String) (w : Repo) : Proc × Repo :=
  match w.faults.head? with
  | some (some f) =>
    (⟨"", f.stderr, some f.err⟩, ⟨w.notes, w.faults.tail, w.trace ++ [args]⟩)
  | _ =>
    match gitNotes E stdin args w.notes with
    | (p, notes1) => (p, ⟨notes1, w.faults.tail, w.trace ++ [args]⟩)

/-! ## Package `git`: exec.go -/

/-- The result `git.Run` and `git.RunWithStdin` build from a finished process. -/
def runResult (args : List String) (p : Proc) : Except String String :=
  match p.err with
  | some err =>
    let stderrStr := TrimSpace p.stderr
    if stderrStr ≠ "" then .error ("git " ++ Join args " " ++ ": " ++ stderrStr)
    else .error ("git " ++ Join args " " ++ ": " ++ err)
  | none => .ok (TrimSpace p.stdout)

/-- `git.Run`. -/
def Run (E : Env) (args : List String) (w : Repo) : Except String String × Repo :=
  match execGit E "" args w with
  | (p, w1) => (runResult args p, w1)

/-- `git.RunWithStdin`. -/
def RunWithStdin (E : Env) (stdin : String) (args : List String) (w : Repo) :
    Except String String × Repo :=
  match execGit E stdin args w with
  | (p, w1) => (runResult args p, w1)

/-! ## Package `store` -/

/-- `(*Store).Get`. -/
def Store.Get (E : Env) (commit : String) (w : Repo) : Except String Remarks × Repo :=
  match Run E ["notes", "--ref=" ++ NotesRef, "show", commit] w with
  | (.error err, w1) =>
    if Contains (ToLower err) "no note found" then (.ok ⟨[]⟩, w1)
    else (.error err, w1)
  | (.ok output, w1) => (ParseRemarks E output, w1)

/-- `(*Store).Remove`. -/
def Store.Remove (E : Env) (commit : String) (w : Repo) : Except String Unit × Repo :=
  match Run E ["notes", "--ref=" ++ NotesRef, "remove", commit] w with
  | (.error err, w1) =>
    if Contains (ToLower err) "no note found" then (.ok (), w1)
    else (.error err, w1)
  | (.ok _, w1) => (.ok (), w1)

/-- `(*Store).Save`. -/
def Store.Save (E : Env) (commit : String) (remarks : Remarks) (w : Repo) :
    Except String Unit × Repo :=
  if remarks.IsEmpty then Store.Remove E commit w
  else
    match remarks.Marshal E with
    | .error err => (.error err, w)
    | .ok data =>
      match RunWithStdin E data
          ["notes", "--ref=" ++ NotesRef, "add", "-f", "-F", "-", commit] w with
      | (.error err, w1) => (.error err, w1)
      | (.ok _, w1) => (.ok (), w1)

/-- `(*Store).Add`. -/
def Store.Add (E : Env) (commit : String) (r : Remark) (w : Repo) :
    Except String Unit × Repo :=
  match Store.Get E commit w with
  | (.error err, w1) => (.error err, w1)
  | (.ok remarks, w1) => Store.Save E commit (remarks.Add r) w1

/-- `(*Store).Resolve`: the returned flag and the returned error (`.ok ()` for
nil).  The last statement returns `true` together with whatever `Save`
returns. -/
def Store.Resolve (E : Env) (commit remarkID : String) (w : Repo) :
    (Bool × Except String Unit) × Repo :=
  match Store.Get E commit w with
  | (.error err, w1) => ((false, .error err), w1)
  | (.ok remarks, w1) =>
    match remarks.RemoveByID remarkID with
    | (_, false) => ((false, .ok ()), w1)
    | (remarks1, true) =>
      match Store.Save E commit remarks1 w1 with
      | (res, w2) => ((true, res), w2)

/-- `(*Store).UpdateRemark`: `*found = r` overwrites the entry found. -/
def Store.UpdateRemark (E : Env) (commit : String) (r : Remark) (w : Repo) :
    Except String Unit × Repo :=
  match Store.Get E commit w with
  | (.error err, w1) => (.error err, w1)
  | (.ok remarks, w1) =>
    match remarks.FindByID r.ID with
    | none => (.ok (), w1)
    | some i => Store.Save E commit ⟨remarks.items.set i r⟩ w1

/-- `(*Store).Migrate`. -/
def Store.Migrate (E : Env) (oldCommit newCommit : String) (w : Repo) :
    Except String Unit × Repo :=
  match Store.Get E oldCommit w with
  | (.error err, w1) => (.error err, w1)
  | (.ok oldRemarks, w1) =>
    if oldRemarks.IsEmpty then (.ok (), w1)
    else
      match Store.Get E newCommit w1 with
      | (.error err, w2) => (.error err, w2)
      | (.ok newRemarks, w2) =>
        match Store.Save E newCommit (newRemarks.Merge (some oldRemarks)) w2 with
        | (.error err, w3) => (.error err, w3)
        | (.ok _, w3) => Store.Remove E oldCommit w3

/-- The assignment `result[commit] = remarks` on a Go map, kept as a list of
its entries. -/
def mapPut (result : List (String × Remarks)) (commit : String) (remarks : Remarks) :
    List (String × Remarks) :=
  match result with
  | [] => [(commit, remarks)]
  | (k, v) :: rest =>
    if k = commit then (commit, remarks) :: rest else (k, v) :: mapPut rest commit remarks

/-- The loop of `(*Store).ListAllWithRemarks` over the lines of the listing. -/
def Store.ListAllWithRemarks.loop (E : Env) :
    List String → List (String × Remarks) → Repo → List (String × Remarks) × Repo
  | [], result, w => (result, w)
  | line :: rest, result, w =>
    match Fields line with
    | _ :: commit :: _ =>
      match Store.Get E commit w with
      | (.error _, w1) => Store.ListAllWithRemarks.loop E rest result w1
      | (.ok remarks, w1) =>
        if !remarks.IsEmpty then
          Store.ListAllWithRemarks.loop E rest (mapPut result commit remarks) w1
        else Store.ListAllWithRemarks.loop E rest result w1
    | _ => Store.ListAllWithRemarks.loop E rest result w

/-- `(*Store).ListAllWithRemarks`: the entries of the map returned. -/
def Store.ListAllWithRemarks (E : Env) (w : Repo) :
    Except String (List (String × Remarks)) × Repo :=
  match Run E ["notes", "--ref=" ++ NotesRef, "list"] w with
  | (.error err, w1) =>
    if Contains err "No notes" then (.ok [], w1)
    else if Contains err "does not have any notes" then (.ok [], w1)
    else (.error err, w1)
  | (.ok output, w1) =>
    if output = "" then (.ok [], w1)
    else
      match Store.ListAllWithRemarks.loop E (Split output '\n') [] w1 with
      | (result, w2) => (.ok result, w2)

/-! ## Package `git`: branch.go and patchid.go

The graph queries only read the repository.  `run` stands for `git.Run` and
`runWithStdin` for `git.RunWithStdin` on the repository at hand. -/

/-- The argument list `args` that `git.GetAncestors` hands to `git.Run`. -/
def GetAncestors.args (commit : String) (limit : Int) : List String :=
  let args := ["rev-list", commit]
  if limit > 0 then args ++ ["-n", runeString (toRune (limit + 48))]
  else args

/-- `git.GetAncestors`; the nil slice is the empty list. -/
def GetAncestors (run : List String → Except String String) (commit : String)
    (limit : Int) : Except String (List String) :=
  match run (GetAncestors.args commit limit) with
  | .error err => .error err
  | .ok output =>
    if output = "" then .ok []
    else .ok (Split output '\n')

/-- `git.GetPatchID`. -/
def GetPatchID (run : List String → Except String String)
    (runWithStdin : String → List String → Except String String) (commit : String) :
    Except String String :=
  match run ["diff-tree", "-p", commit] with
  | .error err => .error err
  | .ok diff =>
    if diff = "" then .ok ""
    else
      match runWithStdin diff ["patch-id", "--stable"] with
      | .error err => .error err
      | .ok output =>
        match Fields output with
        | p :: _ => .ok p
        | [] => .ok ""

/-- The loop of `git.FindCommitByPatchID` over the ancestors. -/
def FindCommitByPatchID.scan (run : List String → Except String String)
    (runWithStdin : String → List String → Except String String) (patchID : String) :
    List String → Except String String
  | [] => .ok ""
  | commit :: rest =>
    match GetPatchID run runWithStdin commit with
    | .error _ => FindCommitByPatchID.scan run runWithStdin patchID rest
    | .ok commitPatchID =>
      if commitPatchID = patchID then .ok commit
      else FindCommitByPatchID.scan run runWithStdin patchID rest

/-- `git.FindCommitByPatchID`. -/
def FindCommitByPatchID (run : List String → Except String String)
    (runWithStdin : String → List String → Except String String)
    (patchID startCommit : String) (limit : Int) : Except String String :=
  if patchID = "" then .ok ""
  else
    match GetAncestors run startCommit limit with
    | .error err => .error err
    | .ok commits => FindCommitByPatchID.scan run runWithStdin patchID commits

/-! ## Package `cmd` -/

/-- How a command ends: it returns (with its error, `none` for nil), or the
process dies in a run-time panic. -/
inductive Exit where
  | returned (err : Option String)
  | panicked
  deriving DecidableEq, Repr

/-- What a run of `runMigrateRewrites` leaves: how it ended, the value of
`migratedCount`, the lines printed, and the repository. -/
structure RewritesRun where
  exit : Exit
  migratedCount : Nat
  output : List String
  repo : Repo
  deriving DecidableEq, Repr

/-- The `for scanner.Scan()` loop of `runMigrateRewrites` over the lines the
scanner delivers. -/
def runMigrateRewrites.loop (E : Env) :
    List String → Nat → List String → Repo → RewritesRun
  | [], migratedCount, out, w => ⟨.returned none, migratedCount, out, w⟩
  | line :: rest, migratedCount, out, w =>
    match Fields line with
    | oldSHA :: newSHA :: _ =>
      match Store.Get E oldSHA w with
      | (.error _, w1) => runMigrateRewrites.loop E rest migratedCount out w1
      | (.ok oldRemarks, w1) =>
        if oldRemarks.IsEmpty then runMigrateRewrites.loop E rest migratedCount out w1
        else
          match Store.Migrate E oldSHA newSHA w1 with
          | (.error err, w2) =>
            match sliceTo oldSHA 7, sliceTo newSHA 7 with
            | some o7, some n7 =>
              runMigrateRewrites.loop E rest migratedCount
                (out ++ ["Warning: failed to migrate remarks from " ++ o7 ++ " to " ++ n7
                  ++ ": " ++ err ++ "\n"]) w2
            | _, _ => ⟨.panicked, migratedCount, out, w2⟩
          | (.ok _, w2) =>
            let shortOld := if oldSHA.utf8ByteSize > 7 then (sliceTo oldSHA 7).getD oldSHA
              else oldSHA
            let shortNew := if newSHA.utf8ByteSize > 7 then (sliceTo newSHA 7).getD newSHA
              else newSHA
            runMigrateRewrites.loop E rest (migratedCount + 1)
              (out ++ ["Migrated " ++ toString oldRemarks.items.length ++ " remark(s): "
                ++ shortOld ++ " → " ++ shortNew ++ "\n"]) w2
    | _ => runMigrateRewrites.loop E rest migratedCount out w

/-- `runMigrateRewrites`: `insideWorkTree` is the answer of
`git.IsInsideWorkTree()`, `lines` are the lines `bufio.Scanner` delivers from
standard input. -/
def runMigrateRewrites (E : Env) (insideWorkTree : Bool) (lines : List String) (w : Repo) :
    RewritesRun :=
  if !insideWorkTree then ⟨.returned none, 0, [], w⟩
  else runMigrateRewrites.loop E lines 0 [] w

/-- The loop of `parseEditorContent` over the lines: the state is `inBody`,
`bodyLines` and `remarkType`. -/
def parseEditorContent.loop :
    List String → Bool → List String → String → List String × String
  | [], _, bodyLines, remarkType => (bodyLines, remarkType)
  | line :: rest, inBody, bodyLines, remarkType =>
    if inBody then parseEditorContent.loop rest inBody (bodyLines ++ [line]) remarkType
    else if HasPrefix (TrimSpace line) "#" then
      parseEditorContent.loop rest inBody bodyLines remarkType
    else if HasPrefix (TrimSpace line) "type:" then
      match SplitN line ':' 2 with
      | [_, p1] =>
        if ValidateType (TrimSpace p1) then
          parseEditorContent.loop rest inBody bodyLines (TrimSpace p1)
        else parseEditorContent.loop rest inBody bodyLines remarkType
      | _ => parseEditorContent.loop rest inBody bodyLines remarkType
    else if TrimSpace line = "---" then parseEditorContent.loop rest true bodyLines remarkType
    else parseEditorContent.loop rest inBody bodyLines remarkType

/-- `parseEditorContent`: the body and the type; the error it returns is always
nil. -/
def parseEditorContent (content : String) : String × String :=
  match parseEditorContent.loop (Split content '\n') false [] "" with
  | (bodyLines, remarkType) => (TrimSpace (Join bodyLines "\n"), remarkType)

/-- The text `template` that `openEditor` writes to the file it opens. -/
def openEditor.template (commit branch remarkType existingBody : String) : String :=
  "# New remark on " ++ commit ++ " (" ++ branch
    ++ ")\n# Lines starting with # are ignored\n\ntype: " ++ remarkType ++ "\n\n---\n\n"
    ++ existingBody

/-- The text `template` that `openEditorForEdit` writes to the file it opens. -/
def openEditorForEdit.template (commit : String) (r : Remark) : String :=
  "# Editing remark [" ++ r.ID ++ "] on " ++ commit ++ " (" ++ r.Branch
    ++ ")\n# Lines starting with # are ignored\n\ntype: " ++ r.Typ ++ "\n\n---\n\n"
    ++ r.Body

/-- What `runAdd` takes from outside the program: the answers of the graph
queries it makes, the file content the editor session leaves for a template
(or the error of `openEditor` when the session fails), the identifier drawn
and the time read. -/
structure AddSession where
  insideWorkTree : Bool
  currentBranch : Except String String
  looksLikeCommit : String → Bool
  revParse : String → Except String String
  shortSHA : String → String
  edit : String → Except String String
  newID : String
  now : Int

/-- `openEditor`: the body and the type read back from the edited file. -/
def openEditor (X : AddSession) (commit branch remarkType existingBody : String) :
    Except String (String × String) :=
  match X.edit (openEditor.template commit branch remarkType existingBody) with
  | .error err => .error err
  | .ok content => .ok (parseEditorContent content)

/-- The commit and the body `runAdd` takes from its arguments. -/
def runAdd.commitAndBody (X : AddSession) (args : List String) : String × String :=
  match args with
  | [] => ("HEAD", "")
  | [a] => if X.looksLikeCommit a then (a, "") else ("HEAD", a)
  | [a, b] => (a, b)
  | a :: rest => (a, Join rest " ")

/-- `runAdd` up to the construction of the remark: the full commit name and
the remark handed to `Store.Add`, or the error returned before that.
`addType`, `addBranch` and `addEdit` are the values of the flags. -/
def runAdd.prepare (X : AddSession) (addType addBranch : String) (addEdit : Bool)
    (args : List String) : Except String (String × Remark) :=
  if !X.insideWorkTree then .error "not a git repository"
  else if !ValidateType addType then
    .error ("invalid type: " ++ addType ++ " (must be thought, doubt, todo, or decision)")
  else
    match (if addBranch = "" then X.currentBranch else .ok addBranch) with
    | .error _ =>
      .error "not on a branch. Use --branch to specify: git remarks add --branch <name> \"body\""
    | .ok branch =>
      match runAdd.commitAndBody X args with
      | (commit, body) =>
        match X.revParse commit with
        | .error _ => .error ("invalid commit: " ++ commit)
        | .ok fullSHA =>
          let shortSHA := X.shortSHA fullSHA
          match (if body = "" ∨ addEdit = true then
              match openEditor X shortSHA branch addType body with
              | .error err => .error err
              | .ok (editedBody, editedType) =>
                .ok (editedBody, if editedType ≠ "" then editedType else addType)
            else (.ok (body, addType) : Except String (String × String))) with
          | .error err => .error err
          | .ok (body1, addType1) =>
            if TrimSpace body1 = "" then .error "remark body cannot be empty"
            else .ok (fullSHA, NewRemark X.newID X.now addType1 branch body1)

/-- `runAdd`. -/
def runAdd (X : AddSession) (E : Env) (addType addBranch : String) (addEdit : Bool)
    (args : List String) (w : Repo) : Except String Unit × Repo :=
  match runAdd.prepare X addType addBranch addEdit args with
  | .error err => (.error err, w)
  | .ok (fullSHA, r) =>
    match Store.Add E fullSHA r w with
    | (.error err, w1) => (.error ("failed to add remark: " ++ err), w1)
    | (.ok _, w1) => (.ok (), w1)

/-- The inner loop of `runMigrateBranch` over the remarks of one collection:
the remarks afterwards, `needsUpdate` and `updatedCount`. -/
def runMigrateBranch.rename (oldBranch newBranch : String) :
    List Remark → Bool → Nat → List Remark × Bool × Nat
  | [], needsUpdate, updatedCount => ([], needsUpdate, updatedCount)
  | r :: rest, needsUpdate, updatedCount =>
    if r.Branch = oldBranch then
      match runMigrateBranch.rename oldBranch newBranch rest true (updatedCount + 1) with
      | (rs, n, c) => ({ r with Branch := newBranch } :: rs, n, c)
    else
      match runMigrateBranch.rename oldBranch newBranch rest needsUpdate updatedCount with
      | (rs, n, c) => (r :: rs, n, c)

/-- What a run of `runMigrateBranch` leaves: how it ended, the value of
`updatedCount`, and the repository. -/
structure BranchRun where
  exit : Exit
  updatedCount : Nat
  repo : Repo
  deriving DecidableEq, Repr

/-- The loop of `runMigrateBranch` over the entries of the map, in the order
the `range` statement yields them. -/
def runMigrateBranch.loop (E : Env) (oldBranch newBranch : String) :
    List (String × Remarks) → Nat → Repo → BranchRun
  | [], updatedCount, w => ⟨.returned none, updatedCount, w⟩
  | (commit, remarks) :: rest, updatedCount, w =>
    match runMigrateBranch.rename oldBranch newBranch remarks.items false updatedCount with
    | (items1, needsUpdate, updatedCount1) =>
      if needsUpdate then
        match Store.Save E commit ⟨items1⟩ w with
        | (.error err, w1) =>
          match sliceTo commit 7 with
          | some c7 =>
            ⟨.returned (some ("failed to update remarks on " ++ c7 ++ ": " ++ err)),
              updatedCount1, w1⟩
          | none => ⟨.panicked, updatedCount1, w1⟩
        | (.ok _, w1) => runMigrateBranch.loop E oldBranch newBranch rest updatedCount1 w1
      else runMigrateBranch.loop E oldBranch newBranch rest updatedCount1 w

/-- `runMigrateBranch`: `insideWorkTree` is the answer of
`git.IsInsideWorkTree()`, and `range` gives the order in which the `range`
statement yields the entries of a map, which Go leaves open. -/
def runMigrateBranch (E : Env) (insideWorkTree : Bool)
    (range : List (String × Remarks) → List (String × Remarks))
    (oldBranch newBranch : String) (w : Repo) : BranchRun :=
  if !insideWorkTree then ⟨.returned (some "not a git repository"), 0, w⟩
  else
    match Store.ListAllWithRemarks E w with
    | (.error err, w1) => ⟨.returned (some ("failed to list remarks: " ++ err)), 0, w1⟩
    | (.ok allRemarks, w1) =>
      runMigrateBranch.loop E oldBranch newBranch (range allRemarks) 0 w1

/-! ## Vocabulary of the statements -/

deriving instance DecidableEq for Except

/-- The arguments of the `git notes show` invocation in `Store.Get`. -/
abbrev showArgs (commit : String) : List String :=
  ["notes", "--ref=" ++ NotesRef, "show", commit]

/-- The arguments of the `git notes remove` invocation in `Store.Remove`. -/
abbrev removeArgs (commit : String) : List String :=
  ["notes", "--ref=" ++ NotesRef, "remove", commit]

/-- The arguments of the `git notes add` invocation in `Store.Save`. -/
abbrev addArgs (commit : String) : List String :=
  ["notes", "--ref=" ++ NotesRef, "add", "-f", "-F", "-", commit]

/-- The collection the store reads for a commit when `git` runs normally. -/
def collectionAt (E : Env) (w : Repo) (commit : String) : Except String Remarks :=
  (Store.Get E commit ⟨w.notes, [], []⟩).1

/-- Every planned `git` invocation runs normally. -/
def Repo.Normal (w : Repo) : Prop := ∀ f ∈ w.faults, f = none

/-- The repository after one more invocation that left it with `notes`. -/
def Repo.after (w : Repo) (args : List String) (notes : List (String × String)) : Repo :=
  ⟨notes, w.faults.tail, w.trace ++ [args]⟩

/-- The next `git` invocation is not planned to fail. -/
def Repo.NextRuns (w : Repo) : Prop := ∀ f, w.faults.head? ≠ some (some f)

/-- The error text `git.Run` reports for a process that failed. -/
def runError (args : List String) (stderr err : String) : String :=
  if TrimSpace stderr ≠ "" then "git " ++ Join args " " ++ ": " ++ TrimSpace stderr
  else "git " ++ Join args " " ++ ": " ++ err

/-- The test `Get` and `Remove` apply to the text of an error. -/
abbrev saysNoNote (msg : String) : Bool := Contains (ToLower msg) "no note found"

/-- The condition under which a normally running `Migrate` moves anything: the source reads as
a non-empty collection, the target reads, and the merged collection can be serialised. -/
def Moves (E : Env) (w : Repo) (source target : String) : Prop :=
  ∃ S T data, collectionAt E w source = .ok ⟨S⟩ ∧ S ≠ [] ∧
    collectionAt E w target = .ok ⟨T⟩ ∧ E.marshal ⟨T ++ S⟩ = .ok data

/-- A call of one of the store operations that write. -/
inductive Op where
  | save (commit : String) (remarks : Remarks)
  | add (commit : String) (r : Remark)
  | resolve (commit remarkID : String)
  | update (commit : String) (r : Remark)
  | migrate (oldCommit newCommit : String)

/-- The repository after a call, whatever the call returned. -/
def Op.apply (E : Env) : Op → Repo → Repo
  | .save c r, w => (Store.Save E c r w).2
  | .add c r, w => (Store.Add E c r w).2
  | .resolve c id, w => (Store.Resolve E c id w).2
  | .update c r, w => (Store.UpdateRemark E c r w).2
  | .migrate a b, w => (Store.Migrate E a b w).2

/-- The repository after a sequence of calls. -/
def runOps (E : Env) : List Op → Repo → Repo
  | [], w => w
  | op :: rest, w => runOps E rest (op.apply E w)

/-- A commit reads as the empty collection exactly when it carries no note. -/
def NoEmptyRecord (E : Env) (w : Repo) : Prop :=
  ∀ c, collectionAt E w c = .ok ⟨[]⟩ ↔ noteAt w.notes c = none

/-- No note reads as the empty collection. -/
def Sound (E : Env) (n : List (String × String)) : Prop :=
  ∀ c text, noteAt n c = some text → ParseRemarks E (TrimSpace text) ≠ .ok ⟨[]⟩

/-- A collection without its first entry carrying the id. -/
def withoutFirst (C : List Remark) (id : String) : List Remark :=
  C.eraseP (fun y => decide (y.ID = id))

/-- A line of the feed with at least two fields. -/
def wellFormed (line : String) : Bool := decide (2 ≤ (Fields line).length)

/-- The line `runMigrateRewrites` prints for a migrated collection of `n` remarks. -/
def migratedLine (n : Nat) (oldSHA newSHA : String) : String :=
  "Migrated " ++ toString n ++ " remark(s): "
    ++ (if oldSHA.utf8ByteSize > 7 then (sliceTo oldSHA 7).getD oldSHA else oldSHA) ++ " → "
    ++ (if newSHA.utf8ByteSize > 7 then (sliceTo newSHA 7).getD newSHA else newSHA) ++ "\n"

/-- A sample remark. -/
def remarkA : Remark :=
  ⟨"a1b2c3d4", "todo", "main", "active", 1700000000000000000, "fix X"⟩

/-- Another sample remark, with a body of two lines. -/
def remarkB : Remark :=
  ⟨"e5f6a7b8", "doubt", "main", "active", 1700000001000000000, "is this right?\nsecond line"⟩

/-- A sample environment: a serialiser that knows four collections, and the
complaints of `git` about a missing note in its own words. -/
def demoEnv : Env where
  marshal r :=
    if r = ⟨[remarkA]⟩ then .ok "remarks: [A]\n"
    else if r = ⟨[remarkB]⟩ then .ok "remarks: [B]\n"
    else if r = ⟨[remarkB, remarkA]⟩ then .ok "remarks: [B, A]\n"
    else if r = ⟨[remarkA, remarkA]⟩ then .ok "remarks: [A, A]\n"
    else .error "yaml: unsupported value"
  unmarshal s :=
    if s = "remarks: [A]" then .ok ⟨[remarkA]⟩
    else if s = "remarks: [B]" then .ok ⟨[remarkB]⟩
    else if s = "remarks: [B, A]" then .ok ⟨[remarkB, remarkA]⟩
    else if s = "remarks: [A, A]" then .ok ⟨[remarkA, remarkA]⟩
    else .error "yaml: unmarshal errors"
  showMissing c := "error: no note found for object " ++ c ++ ".\n"
  removeMissing c := "Object " ++ c ++ " has no note\n"

/-- A sample repository: commit `c1` carries `remarkA`, commit `c2` carries
`remarkB`, and no failure is planned. -/
def demoRepo : Repo :=
  ⟨[("c1", "remarks: [A]\n"), ("c2", "remarks: [B]\n")], [], []⟩

/-- The sample repository with a failure planned for the third invocation. -/
def demoRepoSaveFails : Repo :=
  ⟨demoRepo.notes, [none, none, some ⟨"fatal: unable to write note\n", "exit status 128"⟩], []⟩

/-- The sample repository with a failure planned for the fourth invocation. -/
def demoRepoRemoveFails : Repo :=
  ⟨demoRepo.notes,
    [none, none, none, some ⟨"fatal: unable to write note\n", "exit status 128"⟩], []⟩

/-- A sample graph query: the ancestors of `HEAD` are `c4`, `c3`, `c2`, `c1`, most recent
first; the diff of `c3` cannot be computed. -/
def demoRun (args : List String) : Except String String :=
  if args = ["rev-list", "HEAD"] then .ok "c4\nc3\nc2\nc1"
  else if args = ["diff-tree", "-p", "c4"] then .ok "diff of c4"
  else if args = ["diff-tree", "-p", "c2"] then .ok "diff of c2"
  else if args = ["diff-tree", "-p", "c1"] then .ok "diff of c1"
  else .error "git: fatal: bad object"

/-- A sample `patch-id`: the diffs of `c2` and `c1` have the same fingerprint. -/
def demoRunWithStdin (stdin : String) (args : List String) : Except String String :=
  if args = ["patch-id", "--stable"] then
    if stdin = "diff of c4" then .ok "p4 0000"
    else .ok "pX 0000"
  else .error "git: fatal: unknown command"

/-- A sample repository: commit `c2` carries `remarkB` and `remarkA`. -/
def demoRepoPair : Repo :=
  ⟨[("c2", "remarks: [B, A]\n")], [], []⟩

/-- A sample repository: commit `abc` carries `remarkA`, and the fourth
invocation, the write under the new commit, is planned to fail. -/
def demoRepoShort : Repo :=
  ⟨[("abc", "remarks: [A]\n")],
    [none, none, none, some ⟨"fatal: unable to write note\n", "exit status 128"⟩], []⟩

/-- A sample session: on branch `main`, every name resolves to itself, and the
editor leaves the template as it is. -/
def demoSession : AddSession :=
  ⟨true, .ok "main", fun _ => false, fun c => .ok c, fun c => c, fun t => .ok t,
    "0badc0de", 1700000002000000000⟩

theorem noteAt_setNote_self (n : List (String × String)) (c t : String) :
    noteAt (setNote n c t) c = some t := by
  induction n with
  | nil => simp [setNote, noteAt]
  | cons kv rest ih =>
    obtain ⟨k, v⟩ := kv
    by_cases h : k = c
    · simp [setNote, noteAt, h]
    · simp [setNote, noteAt, h, ih]

theorem noteAt_setNote_ne (n : List (String × String)) (c t c1 : String) (h : c1 ≠ c) :
    noteAt (setNote n c t) c1 = noteAt n c1 := by
  induction n with
  | nil => simp [setNote, noteAt, Ne.symm h]
  | cons kv rest ih =>
    obtain ⟨k, v⟩ := kv
    by_cases hk : k = c
    · subst hk
      simp [setNote, noteAt, Ne.symm h]
    · by_cases hk1 : k = c1
      · subst hk1
        simp [setNote, noteAt, h]
      · simp [setNote, noteAt, hk, hk1, ih]

theorem noteAt_dropNote_self (n : List (String × String)) (c : String) :
    noteAt (dropNote n c) c = none := by
  induction n with
  | nil => simp [dropNote, noteAt]
  | cons kv rest ih =>
    obtain ⟨k, v⟩ := kv
    by_cases h : k = c
    · simp [dropNote, h, ih]
    · simp [dropNote, noteAt, h, ih]

theorem noteAt_dropNote_ne (n : List (String × String)) (c c1 : String) (h : c1 ≠ c) :
    noteAt (dropNote n c) c1 = noteAt n c1 := by
  induction n with
  | nil => simp [dropNote, noteAt]
  | cons kv rest ih =>
    obtain ⟨k, v⟩ := kv
    by_cases hk : k = c
    · subst hk
      simp [dropNote, noteAt, Ne.symm h, ih]
    · by_cases hk1 : k = c1
      · subst hk1
        simp [dropNote, noteAt, h]
      · simp [dropNote, noteAt, hk, hk1, ih]

theorem dropNote_of_absent (n : List (String × String)) (c : String)
    (h : noteAt n c = none) : dropNote n c = n := by
  induction n with
  | nil => simp [dropNote]
  | cons kv rest ih =>
    obtain ⟨k, v⟩ := kv
    by_cases hk : k = c
    · simp [noteAt, hk] at h
    · simp [noteAt, hk] at h
      simp [dropNote, hk, ih h]

theorem gitNotes_show_some (E : Env) (stdin c text : String) (n : List (String × String))
    (hn : noteAt n c = some text) :
    gitNotes E stdin (showArgs c) n = (⟨text, "", none⟩, n) := by
  have h : "--ref=" ++ NotesRef = "--ref=remarks" := by decide
  simp [gitNotes, showArgs, h, hn]

theorem gitNotes_show_none (E : Env) (stdin c : String) (n : List (String × String))
    (hn : noteAt n c = none) :
    gitNotes E stdin (showArgs c) n = (⟨"", E.showMissing c, some "exit status 1"⟩, n) := by
  have h : "--ref=" ++ NotesRef = "--ref=remarks" := by decide
  simp [gitNotes, showArgs, h, hn]

theorem gitNotes_remove_some (E : Env) (stdin c text : String) (n : List (String × String))
    (hn : noteAt n c = some text) :
    gitNotes E stdin (removeArgs c) n = (⟨"", "", none⟩, dropNote n c) := by
  have h : "--ref=" ++ NotesRef = "--ref=remarks" := by decide
  simp [gitNotes, removeArgs, h, hn]

theorem gitNotes_remove_none (E : Env) (stdin c : String) (n : List (String × String))
    (hn : noteAt n c = none) :
    gitNotes E stdin (removeArgs c) n = (⟨"", E.removeMissing c, some "exit status 1"⟩, n) := by
  have h : "--ref=" ++ NotesRef = "--ref=remarks" := by decide
  simp [gitNotes, removeArgs, h, hn]

theorem noteAt_addNote_ne (n : List (String × String)) (c t c1 : String) (h : c1 ≠ c) :
    noteAt (addNote n c t) c1 = noteAt n c1 := by
  unfold addNote
  split
  · exact noteAt_dropNote_ne n c c1 h
  · exact noteAt_setNote_ne n c _ c1 h

theorem noteAt_addNote_self (n : List (String × String)) (c t : String)
    (h : stripspace t ≠ "") : noteAt (addNote n c t) c = some (stripspace t) := by
  unfold addNote
  rw [if_neg h]
  exact noteAt_setNote_self n c _

theorem noteAt_addNote_empty (n : List (String × String)) (c t : String)
    (h : stripspace t = "") : noteAt (addNote n c t) c = none := by
  unfold addNote
  rw [if_pos h]
  exact noteAt_dropNote_self n c

/-- A text that reads back as a collection other than the empty one is not
empty after the clean-up. -/
theorem stripspace_ne_of_reads (E : Env) (data : String)
    (h : ParseRemarks E (TrimSpace (stripspace data)) ≠ .ok ⟨[]⟩) : stripspace data ≠ "" := by
  intro h0
  apply h
  rw [h0]
  rfl

theorem stripspace_ne_of_reads_ok (E : Env) (data : String) (X : Remarks) (hX : X.items ≠ [])
    (h : ParseRemarks E (TrimSpace (stripspace data)) = .ok X) : stripspace data ≠ "" := by
  apply stripspace_ne_of_reads E
  rw [h]
  intro h1
  apply hX
  have := Except.ok.inj h1
  rw [this]

theorem gitNotes_add (E : Env) (stdin c : String) (n : List (String × String)) :
    gitNotes E stdin (addArgs c) n = (⟨"", "", none⟩, addNote n c stdin) := by
  have h : "--ref=" ++ NotesRef = "--ref=remarks" := by decide
  simp [gitNotes, addArgs, h]

theorem Repo.Normal.nextRuns {w : Repo} (h : w.Normal) : w.NextRuns := by
  intro f hf
  have hmem : some f ∈ w.faults := List.mem_of_mem_head? hf
  have := h _ hmem
  simp at this

theorem Repo.Normal.after {w : Repo} (h : w.Normal) (args : List String)
    (notes : List (String × String)) : (w.after args notes).Normal := by
  intro f hf
  exact h f (List.mem_of_mem_tail hf)

theorem runResult_failed (args : List String) (out stderr err : String) :
    runResult args ⟨out, stderr, some err⟩ = .error (runError args stderr err) := by
  unfold runResult runError
  by_cases h : TrimSpace stderr = "" <;> simp [h]

theorem runResult_done (args : List String) (out stderr : String) :
    runResult args ⟨out, stderr, none⟩ = .ok (TrimSpace out) := by
  simp [runResult]

theorem execGit_fault (E : Env) (stdin : String) (args : List String) (w : Repo) (f : Fault)
    (hf : w.faults.head? = some (some f)) :
    execGit E stdin args w = (⟨"", f.stderr, some f.err⟩, w.after args w.notes) := by
  simp [execGit, hf, Repo.after]

theorem execGit_runs (E : Env) (stdin : String) (args : List String) (w : Repo)
    (h : w.NextRuns) :
    execGit E stdin args w =
      ((gitNotes E stdin args w.notes).1, w.after args (gitNotes E stdin args w.notes).2) := by
  unfold execGit
  cases hh : w.faults.head? with
  | none => simp [Repo.after]
  | some o =>
    cases o with
    | none => simp [Repo.after]
    | some f => exact absurd hh (h f)

theorem Run_fault (E : Env) (args : List String) (w : Repo) (f : Fault)
    (hf : w.faults.head? = some (some f)) :
    Run E args w = (.error (runError args f.stderr f.err), w.after args w.notes) := by
  simp [Run, execGit_fault E "" args w f hf, runResult_failed]

theorem RunWithStdin_fault (E : Env) (stdin : String) (args : List String) (w : Repo)
    (f : Fault) (hf : w.faults.head? = some (some f)) :
    RunWithStdin E stdin args w =
      (.error (runError args f.stderr f.err), w.after args w.notes) := by
  simp [RunWithStdin, execGit_fault E stdin args w f hf, runResult_failed]

theorem Get_fault (E : Env) (c : String) (w : Repo) (f : Fault)
    (hf : w.faults.head? = some (some f)) :
    Store.Get E c w =
      (if saysNoNote (runError (showArgs c) f.stderr f.err) then .ok ⟨[]⟩
        else .error (runError (showArgs c) f.stderr f.err),
       w.after (showArgs c) w.notes) := by
  have h := Run_fault E (showArgs c) w f hf
  unfold Store.Get
  rw [h]
  by_cases hs : saysNoNote (runError (showArgs c) f.stderr f.err) = true
  · simp [hs]
  · simp [hs]

theorem Get_present (E : Env) (c text : String) (w : Repo) (hr : w.NextRuns)
    (hn : noteAt w.notes c = some text) :
    Store.Get E c w = (ParseRemarks E (TrimSpace text), w.after (showArgs c) w.notes) := by
  have h : Run E (showArgs c) w = (.ok (TrimSpace text), w.after (showArgs c) w.notes) := by
    simp [Run, execGit_runs E "" (showArgs c) w hr, gitNotes_show_some E "" c text w.notes hn,
      runResult_done]
  unfold Store.Get
  rw [h]

theorem Get_absent (E : Env) (c : String) (w : Repo) (hr : w.NextRuns)
    (hn : noteAt w.notes c = none) :
    Store.Get E c w =
      (if saysNoNote (runError (showArgs c) (E.showMissing c) "exit status 1") then .ok ⟨[]⟩
        else .error (runError (showArgs c) (E.showMissing c) "exit status 1"),
       w.after (showArgs c) w.notes) := by
  have h : Run E (showArgs c) w =
      (.error (runError (showArgs c) (E.showMissing c) "exit status 1"),
        w.after (showArgs c) w.notes) := by
    simp [Run, execGit_runs E "" (showArgs c) w hr, gitNotes_show_none E "" c w.notes hn,
      runResult_failed]
  unfold Store.Get
  rw [h]
  by_cases hs : saysNoNote (runError (showArgs c) (E.showMissing c) "exit status 1") = true
  · simp [hs]
  · simp [hs]

theorem Get_snd (E : Env) (c : String) (w : Repo) :
    (Store.Get E c w).2 = w.after (showArgs c) w.notes := by
  cases hh : w.faults.head? with
  | none =>
    have hr : w.NextRuns := by intro f hf; simp [hh] at hf
    cases hn : noteAt w.notes c with
    | none => rw [Get_absent E c w hr hn]
    | some text => rw [Get_present E c text w hr hn]
  | some o =>
    cases o with
    | none =>
      have hr : w.NextRuns := by intro f hf; simp [hh] at hf
      cases hn : noteAt w.notes c with
      | none => rw [Get_absent E c w hr hn]
      | some text => rw [Get_present E c text w hr hn]
    | some f => rw [Get_fault E c w f hh]

theorem Get_runs (E : Env) (c : String) (w : Repo) (hr : w.NextRuns) :
    Store.Get E c w = (collectionAt E w c, w.after (showArgs c) w.notes) := by
  have hr0 : (⟨w.notes, [], []⟩ : Repo).NextRuns := by intro f hf; simp at hf
  unfold collectionAt
  cases hn : noteAt w.notes c with
  | none => rw [Get_absent E c w hr hn, Get_absent E c ⟨w.notes, [], []⟩ hr0 hn]
  | some text => rw [Get_present E c text w hr hn, Get_present E c text ⟨w.notes, [], []⟩ hr0 hn]

theorem Get_ok_nonempty (E : Env) (c : String) (w : Repo) (r : Remarks)
    (h : (Store.Get E c w).1 = .ok r) (hr : r.items ≠ []) :
    w.NextRuns ∧ collectionAt E w c = .ok r := by
  have key : w.NextRuns := by
    intro f hf
    rw [Get_fault E c w f hf] at h
    by_cases hs : saysNoNote (runError (showArgs c) f.stderr f.err) = true
    · simp [hs] at h
      exact hr (by rw [← h])
    · simp [hs] at h
  refine ⟨key, ?_⟩
  rw [Get_runs E c w key] at h
  exact h

theorem collectionAt_nonempty (E : Env) (c : String) (w : Repo) (r : Remarks)
    (h : collectionAt E w c = .ok r) (hr : r.items ≠ []) :
    ∃ text, noteAt w.notes c = some text ∧ ParseRemarks E (TrimSpace text) = .ok r := by
  have hr0 : (⟨w.notes, [], []⟩ : Repo).NextRuns := by intro f hf; simp at hf
  unfold collectionAt at h
  cases hn : noteAt w.notes c with
  | none =>
    rw [Get_absent E c ⟨w.notes, [], []⟩ hr0 hn] at h
    by_cases hs : saysNoNote (runError (showArgs c) (E.showMissing c) "exit status 1") = true
    · simp [hs] at h
      exact absurd (by rw [← h]) hr
    · simp [hs] at h
  | some text =>
    rw [Get_present E c text ⟨w.notes, [], []⟩ hr0 hn] at h
    exact ⟨text, rfl, h⟩

theorem collectionAt_present (E : Env) (c text : String) (w : Repo)
    (hn : noteAt w.notes c = some text) :
    collectionAt E w c = ParseRemarks E (TrimSpace text) := by
  have hr0 : (⟨w.notes, [], []⟩ : Repo).NextRuns := by intro f hf; simp at hf
  unfold collectionAt
  rw [Get_present E c text ⟨w.notes, [], []⟩ hr0 hn]

theorem collectionAt_congr (E : Env) (c : String) (w w1 : Repo)
    (h : noteAt w1.notes c = noteAt w.notes c) :
    collectionAt E w1 c = collectionAt E w c := by
  have hr0 : (⟨w.notes, [], []⟩ : Repo).NextRuns := by intro f hf; simp at hf
  have hr1 : (⟨w1.notes, [], []⟩ : Repo).NextRuns := by intro f hf; simp at hf
  unfold collectionAt
  cases hn : noteAt w.notes c with
  | none =>
    rw [hn] at h
    rw [Get_absent E c ⟨w.notes, [], []⟩ hr0 hn, Get_absent E c ⟨w1.notes, [], []⟩ hr1 h]
  | some text =>
    rw [hn] at h
    rw [Get_present E c text ⟨w.notes, [], []⟩ hr0 hn,
      Get_present E c text ⟨w1.notes, [], []⟩ hr1 h]

theorem Remove_fault (E : Env) (c : String) (w : Repo) (f : Fault)
    (hf : w.faults.head? = some (some f)) :
    Store.Remove E c w =
      (if saysNoNote (runError (removeArgs c) f.stderr f.err) then .ok ()
        else .error (runError (removeArgs c) f.stderr f.err),
       w.after (removeArgs c) w.notes) := by
  have h := Run_fault E (removeArgs c) w f hf
  unfold Store.Remove
  rw [h]
  by_cases hs : saysNoNote (runError (removeArgs c) f.stderr f.err) = true
  · simp [hs]
  · simp [hs]

theorem Remove_present (E : Env) (c text : String) (w : Repo) (hr : w.NextRuns)
    (hn : noteAt w.notes c = some text) :
    Store.Remove E c w = (.ok (), w.after (removeArgs c) (dropNote w.notes c)) := by
  have h : Run E (removeArgs c) w = (.ok (TrimSpace ""), w.after (removeArgs c) (dropNote w.notes c)) := by
    simp [Run, execGit_runs E "" (removeArgs c) w hr, gitNotes_remove_some E "" c text w.notes hn,
      runResult_done]
  unfold Store.Remove
  rw [h]

theorem Remove_absent (E : Env) (c : String) (w : Repo) (hr : w.NextRuns)
    (hn : noteAt w.notes c = none) :
    Store.Remove E c w =
      (if saysNoNote (runError (removeArgs c) (E.removeMissing c) "exit status 1") then .ok ()
        else .error (runError (removeArgs c) (E.removeMissing c) "exit status 1"),
       w.after (removeArgs c) w.notes) := by
  have h : Run E (removeArgs c) w =
      (.error (runError (removeArgs c) (E.removeMissing c) "exit status 1"),
        w.after (removeArgs c) w.notes) := by
    simp [Run, execGit_runs E "" (removeArgs c) w hr, gitNotes_remove_none E "" c w.notes hn,
      runResult_failed]
  unfold Store.Remove
  rw [h]
  by_cases hs : saysNoNote (runError (removeArgs c) (E.removeMissing c) "exit status 1") = true
  · simp [hs]
  · simp [hs]

theorem Save_empty (E : Env) (c : String) (r : Remarks) (w : Repo) (hr : r.items = []) :
    Store.Save E c r w = Store.Remove E c w := by
  simp [Store.Save, Remarks.IsEmpty, hr]

theorem Save_unserialisable (E : Env) (c : String) (r : Remarks) (w : Repo) (err : String)
    (hr : r.items ≠ []) (hm : E.marshal r = .error err) :
    Store.Save E c r w = (.error err, w) := by
  simp [Store.Save, Remarks.IsEmpty, hr, Remarks.Marshal, hm]

theorem Save_fault (E : Env) (c : String) (r : Remarks) (w : Repo) (data : String) (f : Fault)
    (hr : r.items ≠ []) (hm : E.marshal r = .ok data)
    (hf : w.faults.head? = some (some f)) :
    Store.Save E c r w =
      (.error (runError (addArgs c) f.stderr f.err), w.after (addArgs c) w.notes) := by
  have h := RunWithStdin_fault E data (addArgs c) w f hf
  simp [Store.Save, Remarks.IsEmpty, hr, Remarks.Marshal, hm, h]

theorem Save_runs (E : Env) (c : String) (r : Remarks) (w : Repo) (data : String)
    (hr : r.items ≠ []) (hm : E.marshal r = .ok data) (hn : w.NextRuns) :
    Store.Save E c r w = (.ok (), w.after (addArgs c) (addNote w.notes c data)) := by
  have h : RunWithStdin E data (addArgs c) w =
      (.ok (TrimSpace ""), w.after (addArgs c) (addNote w.notes c data)) := by
    simp [RunWithStdin, execGit_runs E data (addArgs c) w hn, gitNotes_add, runResult_done]
  simp [Store.Save, Remarks.IsEmpty, hr, Remarks.Marshal, hm, h]

/-! ## Migration -/

theorem Repo.after_notes (w : Repo) (args : List String) (n : List (String × String)) :
    (w.after args n).notes = n := rfl

/-- The run of `Migrate` when the source holds `S`, non-empty, the target holds `T`, the merged
collection can be serialised and every invocation runs normally. -/
theorem Migrate_runs (E : Env) (w : Repo) (source target : String) (S T : List Remark)
    (data : String) (hne : source ≠ target) (hw : w.Normal)
    (hS : collectionAt E w source = .ok ⟨S⟩) (hSne : S ≠ [])
    (hT : collectionAt E w target = .ok ⟨T⟩)
    (hm : E.marshal ⟨T ++ S⟩ = .ok data) :
    Store.Migrate E source target w =
      (.ok (), (((w.after (showArgs source) w.notes).after (showArgs target) w.notes).after
        (addArgs target) (addNote w.notes target data)).after (removeArgs source)
          (dropNote (addNote w.notes target data) source)) := by
  obtain ⟨text, hnote, -⟩ := collectionAt_nonempty E source w ⟨S⟩ hS hSne
  have hw1 := hw.after (showArgs source) w.notes
  have hw2 := hw1.after (showArgs target) w.notes
  have hw3 := hw2.after (addArgs target) (addNote w.notes target data)
  have hT1 : collectionAt E (w.after (showArgs source) w.notes) target = .ok ⟨T⟩ := by
    rw [collectionAt_congr E target w (w.after (showArgs source) w.notes) rfl]; exact hT
  have hne3 : noteAt (addNote w.notes target data) source = some text := by
    rw [noteAt_addNote_ne _ _ _ _ hne]; exact hnote
  unfold Store.Migrate
  rw [Get_runs E source w hw.nextRuns, hS]
  simp only [Remarks.IsEmpty, List.length_eq_zero, hSne, decide_False, Bool.false_eq_true,
    if_false]
  rw [Get_runs E target _ hw1.nextRuns, hT1]
  simp only [Remarks.Merge, Repo.after_notes]
  rw [Save_runs E target ⟨T ++ S⟩ _ data (by simp [hSne]) hm hw2.nextRuns]
  simp only [Repo.after_notes]
  rw [Remove_present E source text _ hw3.nextRuns (by simpa [Repo.after_notes] using hne3)]
  rfl

/-- C1. When the source holds `S`, non-empty, the target holds `T`, the two commits differ,
every `git` invocation runs normally, and the merged collection is serialised to a text that,
as `git` stores it, reads back as that collection, `Migrate` succeeds, the target then holds
`T ++ S` (of length `|T| + |S|`) and the source has no note. -/
theorem migrate_conservation (E : Env) (w : Repo) (source target : String) (S T : List Remark)
    (data : String) (hne : source ≠ target) (hw : w.Normal)
    (hS : collectionAt E w source = .ok ⟨S⟩) (hSne : S ≠ [])
    (hT : collectionAt E w target = .ok ⟨T⟩)
    (hm : E.marshal ⟨T ++ S⟩ = .ok data)
    (hp : ParseRemarks E (TrimSpace (stripspace data)) = .ok ⟨T ++ S⟩) :
    (Store.Migrate E source target w).1 = .ok () ∧
    collectionAt E (Store.Migrate E source target w).2 target = .ok ⟨T ++ S⟩ ∧
    (T ++ S).length = T.length + S.length ∧
    noteAt (Store.Migrate E source target w).2.notes source = none := by
  rw [Migrate_runs E w source target S T data hne hw hS hSne hT hm]
  refine ⟨rfl, ?_, List.length_append T S, ?_⟩
  · have hd := stripspace_ne_of_reads_ok E data ⟨T ++ S⟩ (by simp [hSne]) hp
    have hn : noteAt (dropNote (addNote w.notes target data) source) target
        = some (stripspace data) := by
      rw [noteAt_dropNote_ne _ _ _ (Ne.symm hne), noteAt_addNote_self _ _ _ hd]
    rw [collectionAt_present E target (stripspace data) _
      (by simpa [Repo.after_notes] using hn)]
    exact hp
  · simpa [Repo.after_notes] using noteAt_dropNote_self (addNote w.notes target data) source

/-- C1 at the sample repository: `c1` holds `remarkA`, `c2` holds `remarkB`. -/
theorem migrate_conservation_witness :
    (Store.Migrate demoEnv "c1" "c2" demoRepo).1 = .ok () ∧
    collectionAt demoEnv (Store.Migrate demoEnv "c1" "c2" demoRepo).2 "c2"
      = .ok ⟨[remarkB] ++ [remarkA]⟩ ∧
    ([remarkB] ++ [remarkA]).length = [remarkB].length + [remarkA].length ∧
    noteAt (Store.Migrate demoEnv "c1" "c2" demoRepo).2.notes "c1" = none :=
  migrate_conservation demoEnv demoRepo "c1" "c2" [remarkA] [remarkB] "remarks: [B, A]\n"
    (by decide) (by intro f hf; simp [demoRepo] at hf) (by decide) (by decide) (by decide)
    (by decide) (by decide)

/-- C2. `Migrate` of a commit onto itself returns no error and leaves the commit without any
note: the remark it carried is gone. -/
theorem migrate_onto_itself_drops :
    collectionAt demoEnv demoRepo "c1" = .ok ⟨[remarkA]⟩ ∧
    (Store.Migrate demoEnv "c1" "c1" demoRepo).1 = .ok () ∧
    noteAt (Store.Migrate demoEnv "c1" "c1" demoRepo).2.notes "c1" = none ∧
    collectionAt demoEnv (Store.Migrate demoEnv "c1" "c1" demoRepo).2 "c1" = .ok ⟨[]⟩ := by
  decide

theorem Repo.nextRuns_or_fault (w : Repo) :
    w.NextRuns ∨ ∃ f, w.faults.head? = some (some f) := by
  cases hh : w.faults.head? with
  | none => left; intro f hf; simp [hh] at hf
  | some o =>
    cases o with
    | none => left; intro f hf; simp [hh] at hf
    | some f => right; exact ⟨f, rfl⟩

theorem Migrate_of_gets (E : Env) (w : Repo) (source target : String) (S T : List Remark)
    (hS : (Store.Get E source w).1 = .ok ⟨S⟩) (hSne : S ≠ [])
    (hT : (Store.Get E target (Store.Get E source w).2).1 = .ok ⟨T⟩) :
    Store.Migrate E source target w =
      match Store.Save E target ⟨T ++ S⟩ (Store.Get E target (Store.Get E source w).2).2 with
      | (.error err, w3) => (.error err, w3)
      | (.ok _, w3) => Store.Remove E source w3 := by
  unfold Store.Migrate
  rcases hg : Store.Get E source w with ⟨res, w1⟩
  rw [hg] at hS hT
  simp only at hS hT
  subst hS
  rcases hg2 : Store.Get E target w1 with ⟨res2, w2⟩
  rw [hg2] at hT
  simp only at hT
  subst hT
  simp only [Remarks.IsEmpty, List.length_eq_zero, hSne, decide_False, Bool.false_eq_true,
    if_false, Remarks.Merge, hg2]

theorem Save_error_notes (E : Env) (c : String) (r : Remarks) (w : Repo) (err : String)
    (hr : r.items ≠ []) (h : (Store.Save E c r w).1 = .error err) :
    (Store.Save E c r w).2.notes = w.notes ∧
    ((Store.Save E c r w).2.trace = w.trace ∨
      (Store.Save E c r w).2.trace = w.trace ++ [addArgs c]) := by
  cases hm : E.marshal r with
  | error e =>
    rw [Save_unserialisable E c r w e hr hm]
    exact ⟨rfl, Or.inl rfl⟩
  | ok data =>
    rcases w.nextRuns_or_fault with hn | ⟨f, hf⟩
    · rw [Save_runs E c r w data hr hm hn] at h
      simp at h
    · rw [Save_fault E c r w data f hr hm hf]
      exact ⟨rfl, Or.inr rfl⟩

theorem Save_ok_nonempty (E : Env) (c : String) (r : Remarks) (w : Repo)
    (hr : r.items ≠ []) (h : (Store.Save E c r w).1 = .ok ()) :
    ∃ data, E.marshal r = .ok data ∧
      Store.Save E c r w = (.ok (), w.after (addArgs c) (addNote w.notes c data)) := by
  cases hm : E.marshal r with
  | error e =>
    rw [Save_unserialisable E c r w e hr hm] at h
    simp at h
  | ok data =>
    rcases w.nextRuns_or_fault with hn | ⟨f, hf⟩
    · exact ⟨data, rfl, Save_runs E c r w data hr hm hn⟩
    · rw [Save_fault E c r w data f hr hm hf] at h
      simp at h

theorem Remove_error_notes (E : Env) (c : String) (w : Repo) (err : String)
    (h : (Store.Remove E c w).1 = .error err) :
    (Store.Remove E c w).2 = w.after (removeArgs c) w.notes := by
  rcases w.nextRuns_or_fault with hn | ⟨f, hf⟩
  · cases hnote : noteAt w.notes c with
    | none => rw [Remove_absent E c w hn hnote]
    | some text =>
      rw [Remove_present E c text w hn hnote] at h
      simp at h
  · rw [Remove_fault E c w f hf]

/-- C3. When `Migrate` has read a non-empty `S` at the source and `T` at the target and the
save of the merged collection under the target returns an error, `Migrate` returns that error,
the invocations it made are the two reads and at most the failed write (no removal), every note
is as it was, and the source still holds exactly `S`. -/
theorem migrate_save_failure (E : Env) (w : Repo) (source target : String)
    (S T : List Remark) (err : String)
    (hS : (Store.Get E source w).1 = .ok ⟨S⟩) (hSne : S ≠ [])
    (hT : (Store.Get E target (Store.Get E source w).2).1 = .ok ⟨T⟩)
    (hsave : (Store.Save E target ⟨T ++ S⟩
      (Store.Get E target (Store.Get E source w).2).2).1 = .error err) :
    (Store.Migrate E source target w).1 = .error err ∧
    ((Store.Migrate E source target w).2.trace = w.trace ++ [showArgs source, showArgs target] ∨
      (Store.Migrate E source target w).2.trace
        = w.trace ++ [showArgs source, showArgs target, addArgs target]) ∧
    (Store.Migrate E source target w).2.notes = w.notes ∧
    collectionAt E (Store.Migrate E source target w).2 source = .ok ⟨S⟩ := by
  have hcol := (Get_ok_nonempty E source w ⟨S⟩ hS hSne).2
  have hmig := Migrate_of_gets E w source target S T hS hSne hT
  have hne : (⟨T ++ S⟩ : Remarks).items ≠ [] := by simp [hSne]
  obtain ⟨hnotes, htrace⟩ := Save_error_notes E target ⟨T ++ S⟩ _ err hne hsave
  rcases hsv : Store.Save E target ⟨T ++ S⟩ (Store.Get E target (Store.Get E source w).2).2
    with ⟨res, w3⟩
  rw [hsv] at hsave hnotes htrace hmig
  simp only at hsave hnotes htrace
  subst hsave
  simp only at hmig
  rw [hmig]
  simp only [Get_snd, Repo.after] at hnotes htrace
  refine ⟨rfl, ?_, hnotes, ?_⟩
  · rcases htrace with h | h
    · left; simp [h]
    · right; simp [h]
  · rw [collectionAt_congr E source w w3 (by rw [hnotes])]
    exact hcol

/-- C3 at the sample repository when the third invocation, the write of the target, fails. -/
theorem migrate_save_failure_witness :
    (Store.Migrate demoEnv "c1" "c2" demoRepoSaveFails).1
      = .error "git notes --ref=remarks add -f -F - c2: fatal: unable to write note" ∧
    ((Store.Migrate demoEnv "c1" "c2" demoRepoSaveFails).2.trace
        = demoRepoSaveFails.trace ++ [showArgs "c1", showArgs "c2"] ∨
      (Store.Migrate demoEnv "c1" "c2" demoRepoSaveFails).2.trace
        = demoRepoSaveFails.trace ++ [showArgs "c1", showArgs "c2", addArgs "c2"]) ∧
    (Store.Migrate demoEnv "c1" "c2" demoRepoSaveFails).2.notes = demoRepoSaveFails.notes ∧
    collectionAt demoEnv (Store.Migrate demoEnv "c1" "c2" demoRepoSaveFails).2 "c1"
      = .ok ⟨[remarkA]⟩ :=
  migrate_save_failure demoEnv demoRepoSaveFails "c1" "c2" [remarkA] [remarkB]
    "git notes --ref=remarks add -f -F - c2: fatal: unable to write note"
    (by decide) (by decide) (by decide) (by decide)

/-- C4. For distinct commits, when `Migrate` has read a non-empty `S` at the source and `T` at
the target, the save under the target succeeds and the removal of the source note then returns
an error, `Migrate` returns that error, the target holds `T ++ S` and the source still holds
`S`.  The serialiser is assumed to read back `T ++ S` from the text it wrote for it, as
`git` stores that text. -/
theorem migrate_remove_failure (E : Env) (w : Repo) (source target : String)
    (S T : List Remark) (err : String) (hne : source ≠ target)
    (hS : (Store.Get E source w).1 = .ok ⟨S⟩) (hSne : S ≠ [])
    (hT : (Store.Get E target (Store.Get E source w).2).1 = .ok ⟨T⟩)
    (hsave : (Store.Save E target ⟨T ++ S⟩
      (Store.Get E target (Store.Get E source w).2).2).1 = .ok ())
    (hrem : (Store.Remove E source (Store.Save E target ⟨T ++ S⟩
      (Store.Get E target (Store.Get E source w).2).2).2).1 = .error err)
    (hp : ∀ data, E.marshal ⟨T ++ S⟩ = .ok data →
      ParseRemarks E (TrimSpace (stripspace data)) = .ok ⟨T ++ S⟩) :
    (Store.Migrate E source target w).1 = .error err ∧
    collectionAt E (Store.Migrate E source target w).2 target = .ok ⟨T ++ S⟩ ∧
    collectionAt E (Store.Migrate E source target w).2 source = .ok ⟨S⟩ := by
  have hcol := (Get_ok_nonempty E source w ⟨S⟩ hS hSne).2
  have hmig := Migrate_of_gets E w source target S T hS hSne hT
  have hne2 : (⟨T ++ S⟩ : Remarks).items ≠ [] := by simp [hSne]
  obtain ⟨data, hm, hsv⟩ := Save_ok_nonempty E target ⟨T ++ S⟩ _ hne2 hsave
  rw [hsv] at hmig hrem
  simp only at hmig hrem
  have hst := Remove_error_notes E source _ err hrem
  rw [hmig]
  refine ⟨hrem, ?_, ?_⟩
  · rw [hst]
    have hn : noteAt (addNote w.notes target data) target = some (stripspace data) :=
      noteAt_addNote_self _ _ _ (stripspace_ne_of_reads_ok E data ⟨T ++ S⟩ hne2 (hp data hm))
    rw [collectionAt_present E target (stripspace data) _
      (by simpa [Repo.after, Get_snd] using hn)]
    exact hp data hm
  · rw [hst, collectionAt_congr E source w _ (by
      simpa [Repo.after, Get_snd] using noteAt_addNote_ne w.notes target data source hne)]
    exact hcol

/-- C4 at the sample repository when the fourth invocation, the removal, fails. -/
theorem migrate_remove_failure_witness :
    (Store.Migrate demoEnv "c1" "c2" demoRepoRemoveFails).1
      = .error "git notes --ref=remarks remove c1: fatal: unable to write note" ∧
    collectionAt demoEnv (Store.Migrate demoEnv "c1" "c2" demoRepoRemoveFails).2 "c2"
      = .ok ⟨[remarkB] ++ [remarkA]⟩ ∧
    collectionAt demoEnv (Store.Migrate demoEnv "c1" "c2" demoRepoRemoveFails).2 "c1"
      = .ok ⟨[remarkA]⟩ :=
  migrate_remove_failure demoEnv demoRepoRemoveFails "c1" "c2" [remarkA] [remarkB]
    "git notes --ref=remarks remove c1: fatal: unable to write note"
    (by decide) (by decide) (by decide) (by decide) (by decide) (by decide)
    (by intro data hm
        have hd : data = "remarks: [B, A]\n" := by
          have h2 : demoEnv.marshal ⟨[remarkB] ++ [remarkA]⟩ = .ok "remarks: [B, A]\n" := by
            decide
          rw [h2] at hm
          exact (Except.ok.inj hm).symm
        subst hd
        decide)

/-- C5. When the source reads as the empty collection, `Migrate` returns success, its only
invocation is the read of the source (no read of the target, no write, no removal), and every
note, hence every persisted collection, is as it was. -/
theorem migrate_empty_source (E : Env) (w : Repo) (source target : String) (r : Remarks)
    (hS : (Store.Get E source w).1 = .ok r) (hr : r.items = []) :
    (Store.Migrate E source target w).1 = .ok () ∧
    (Store.Migrate E source target w).2.trace = w.trace ++ [showArgs source] ∧
    (Store.Migrate E source target w).2.notes = w.notes ∧
    ∀ c, collectionAt E (Store.Migrate E source target w).2 c = collectionAt E w c := by
  have hmig : Store.Migrate E source target w = (.ok (), w.after (showArgs source) w.notes) := by
    unfold Store.Migrate
    rcases hg : Store.Get E source w with ⟨res, w1⟩
    have h2 := Get_snd E source w
    rw [hg] at hS h2
    simp only at hS h2
    subst hS
    simp [Remarks.IsEmpty, hr, h2]
  rw [hmig]
  exact ⟨rfl, rfl, rfl, fun c => collectionAt_congr E c w _ rfl⟩

/-- C5 at the sample repository: `c3` carries no note. -/
theorem migrate_empty_source_witness :
    (Store.Migrate demoEnv "c3" "c2" demoRepo).1 = .ok () ∧
    (Store.Migrate demoEnv "c3" "c2" demoRepo).2.trace = demoRepo.trace ++ [showArgs "c3"] ∧
    (Store.Migrate demoEnv "c3" "c2" demoRepo).2.notes = demoRepo.notes ∧
    ∀ c, collectionAt demoEnv (Store.Migrate demoEnv "c3" "c2" demoRepo).2 c
      = collectionAt demoEnv demoRepo c :=
  migrate_empty_source demoEnv demoRepo "c3" "c2" ⟨[]⟩ (by decide) rfl

theorem Migrate_still (E : Env) (w : Repo) (source target : String) (hw : w.Normal)
    (hno : ¬ Moves E w source target) :
    (Store.Migrate E source target w).2.notes = w.notes ∧
    (Store.Migrate E source target w).2.Normal := by
  have hw1 := hw.after (showArgs source) w.notes
  have hw2 := hw1.after (showArgs target) w.notes
  unfold Store.Migrate
  rw [Get_runs E source w hw.nextRuns]
  cases hS : collectionAt E w source with
  | error e => exact ⟨rfl, hw1⟩
  | ok old =>
    by_cases hE : old.items = []
    · simp only [Remarks.IsEmpty, hE, List.length_nil, decide_True, if_true]
      exact ⟨rfl, hw1⟩
    · simp only [Remarks.IsEmpty, List.length_eq_zero, hE, decide_False, Bool.false_eq_true,
        if_false]
      rw [Get_runs E target _ hw1.nextRuns,
        collectionAt_congr E target w (w.after (showArgs source) w.notes) rfl]
      cases hT : collectionAt E w target with
      | error e => exact ⟨rfl, hw2⟩
      | ok new =>
        simp only [Remarks.Merge, Repo.after_notes]
        have hne : (⟨new.items ++ old.items⟩ : Remarks).items ≠ [] := by simp [hE]
        cases hm : E.marshal ⟨new.items ++ old.items⟩ with
        | error e =>
          rw [Save_unserialisable E target _ _ e hne hm]
          exact ⟨rfl, hw2⟩
        | ok data =>
          exact absurd ⟨old.items, new.items, data, hS, hE, hT, hm⟩ hno

/-- C6. For distinct commits and a repository in which every `git` invocation runs normally,
a second `Migrate` right after the first leaves exactly the notes the first one left, so every
commit holds the collection it held after the first run. -/
theorem migrate_twice (E : Env) (w : Repo) (source target : String)
    (hne : source ≠ target) (hw : w.Normal) :
    (Store.Migrate E source target (Store.Migrate E source target w).2).2.notes
      = (Store.Migrate E source target w).2.notes ∧
    ∀ c, collectionAt E (Store.Migrate E source target (Store.Migrate E source target w).2).2 c
      = collectionAt E (Store.Migrate E source target w).2 c := by
  suffices h : (Store.Migrate E source target (Store.Migrate E source target w).2).2.notes
      = (Store.Migrate E source target w).2.notes from
    ⟨h, fun c => collectionAt_congr E c _ _ (by rw [h])⟩
  by_cases hmv : Moves E w source target
  · obtain ⟨S, T, data, hS, hSne, hT, hm⟩ := hmv
    rw [Migrate_runs E w source target S T data hne hw hS hSne hT hm]
    simp only
    have hw4 := (((hw.after (showArgs source) w.notes).after (showArgs target) w.notes).after
        (addArgs target) (addNote w.notes target data)).after (removeArgs source)
          (dropNote (addNote w.notes target data) source)
    refine (Migrate_still E _ source target hw4 ?_).1
    rintro ⟨S2, T2, data2, hS2, hS2ne, -, -⟩
    obtain ⟨text, hnote, -⟩ := collectionAt_nonempty E source _ ⟨S2⟩ hS2 hS2ne
    rw [Repo.after_notes, noteAt_dropNote_self] at hnote
    exact Option.noConfusion hnote
  · obtain ⟨hnotes, hw1⟩ := Migrate_still E w source target hw hmv
    refine (Migrate_still E _ source target hw1 ?_).1
    rintro ⟨S, T, data, hS, hSne, hT, hm⟩
    apply hmv
    refine ⟨S, T, data, ?_, hSne, ?_, hm⟩
    · rw [← collectionAt_congr E source w _ (by rw [hnotes])]; exact hS
    · rw [← collectionAt_congr E target w _ (by rw [hnotes])]; exact hT

/-- C6 at the sample repository. -/
theorem migrate_twice_witness :
    (Store.Migrate demoEnv "c1" "c2" (Store.Migrate demoEnv "c1" "c2" demoRepo).2).2.notes
      = (Store.Migrate demoEnv "c1" "c2" demoRepo).2.notes ∧
    ∀ c, collectionAt demoEnv
        (Store.Migrate demoEnv "c1" "c2" (Store.Migrate demoEnv "c1" "c2" demoRepo).2).2 c
      = collectionAt demoEnv (Store.Migrate demoEnv "c1" "c2" demoRepo).2 c :=
  migrate_twice demoEnv demoRepo "c1" "c2" (by decide) (by intro f hf; simp [demoRepo] at hf)

/-! ## Recovery: fingerprint search -/

theorem scan_none (run : List String → Except String String)
    (runWithStdin : String → List String → Except String String) (F : String) (l : List String)
    (h : ∀ c ∈ l, GetPatchID run runWithStdin c ≠ .ok F) :
    FindCommitByPatchID.scan run runWithStdin F l = .ok "" := by
  induction l with
  | nil => rfl
  | cons c rest ih =>
    have hc := h c (List.mem_cons_self c rest)
    have hrest := ih (fun x hx => h x (List.mem_cons_of_mem c hx))
    unfold FindCommitByPatchID.scan
    cases hp : GetPatchID run runWithStdin c with
    | error e => simpa using hrest
    | ok p =>
      have hne : p ≠ F := by
        intro hpf
        exact hc (by rw [hp, hpf])
      simpa [hne] using hrest

theorem scan_first (run : List String → Except String String)
    (runWithStdin : String → List String → Except String String) (F : String)
    (pre : List String) (c : String) (post : List String)
    (hpre : ∀ x ∈ pre, GetPatchID run runWithStdin x ≠ .ok F)
    (hc : GetPatchID run runWithStdin c = .ok F) :
    FindCommitByPatchID.scan run runWithStdin F (pre ++ c :: post) = .ok c := by
  induction pre with
  | nil =>
    simp [FindCommitByPatchID.scan, hc]
  | cons x rest ih =>
    have hx := hpre x (List.mem_cons_self x rest)
    have hrest := ih (fun y hy => hpre y (List.mem_cons_of_mem x hy))
    rw [List.cons_append]
    unfold FindCommitByPatchID.scan
    cases hp : GetPatchID run runWithStdin x with
    | error e => simpa using hrest
    | ok p =>
      have hne : p ≠ F := by
        intro hpf
        exact hx (by rw [hp, hpf])
      simpa [hne] using hrest

theorem scan_found (run : List String → Except String String)
    (runWithStdin : String → List String → Except String String) (F : String)
    (l : List String) (c : String) (hc : c ≠ "")
    (h : FindCommitByPatchID.scan run runWithStdin F l = .ok c) :
    c ∈ l ∧ GetPatchID run runWithStdin c = .ok F := by
  induction l with
  | nil =>
    simp [FindCommitByPatchID.scan] at h
    exact absurd h.symm hc
  | cons x rest ih =>
    unfold FindCommitByPatchID.scan at h
    cases hp : GetPatchID run runWithStdin x with
    | error e =>
      rw [hp] at h
      obtain ⟨h1, h2⟩ := ih h
      exact ⟨List.mem_cons_of_mem x h1, h2⟩
    | ok p =>
      rw [hp] at h
      by_cases hpf : p = F
      · simp [hpf] at h
        subst h
        exact ⟨List.mem_cons_self _ _, by rw [hp, hpf]⟩
      · simp [hpf] at h
        obtain ⟨h1, h2⟩ := ih h
        exact ⟨List.mem_cons_of_mem x h1, h2⟩

theorem scan_match (run : List String → Except String String)
    (runWithStdin : String → List String → Except String String) (F : String)
    (l : List String) (c : String)
    (hc : c ∈ l) (hp : GetPatchID run runWithStdin c = .ok F) :
    ∃ d, d ∈ l ∧ GetPatchID run runWithStdin d = .ok F ∧
      FindCommitByPatchID.scan run runWithStdin F l = .ok d := by
  induction l with
  | nil => simp at hc
  | cons x rest ih =>
    unfold FindCommitByPatchID.scan
    cases hx : GetPatchID run runWithStdin x with
    | error e =>
      have hcr : c ∈ rest := by
        rcases List.mem_cons.mp hc with h | h
        · subst h; rw [hx] at hp; simp at hp
        · exact h
      obtain ⟨d, hd, hdp, hs⟩ := ih hcr
      exact ⟨d, List.mem_cons_of_mem x hd, hdp, by simpa using hs⟩
    | ok p =>
      by_cases hpf : p = F
      · exact ⟨x, List.mem_cons_self _ _, by rw [hx, hpf], by simp [hpf]⟩
      · have hcr : c ∈ rest := by
          rcases List.mem_cons.mp hc with h | h
          · subst h; rw [hx] at hp; exact absurd (Except.ok.inj hp) hpf
          · exact h
        obtain ⟨d, hd, hdp, hs⟩ := ih hcr
        exact ⟨d, List.mem_cons_of_mem x hd, hdp, by simpa [hpf] using hs⟩

/-- C7. For a non-empty fingerprint `F` and an ancestor list `commits` (most recent first)
returned by `GetAncestors`, with `GetPatchID` possibly failing on some ancestors:
`FindCommitByPatchID` returns the first element of the list whose fingerprint is computed and
equals `F`, whatever comes after it; it returns the empty result when no element has
fingerprint `F`; and, identities being non-empty, it returns the empty result only then. -/
theorem find_commit_by_patch_id (run : List String → Except String String)
    (runWithStdin : String → List String → Except String String)
    (F startCommit : String) (limit : Int) (commits : List String)
    (hF : F ≠ "") (hA : GetAncestors run startCommit limit = .ok commits) :
    (∀ pre c post, commits = pre ++ c :: post →
      (∀ x ∈ pre, GetPatchID run runWithStdin x ≠ .ok F) →
      GetPatchID run runWithStdin c = .ok F →
      FindCommitByPatchID run runWithStdin F startCommit limit = .ok c) ∧
    ((∀ c ∈ commits, GetPatchID run runWithStdin c ≠ .ok F) →
      FindCommitByPatchID run runWithStdin F startCommit limit = .ok "") ∧
    ("" ∉ commits →
      (FindCommitByPatchID run runWithStdin F startCommit limit = .ok "" ↔
        ∀ c ∈ commits, GetPatchID run runWithStdin c ≠ .ok F)) := by
  have hfind : FindCommitByPatchID run runWithStdin F startCommit limit
      = FindCommitByPatchID.scan run runWithStdin F commits := by
    simp [FindCommitByPatchID, hF, hA]
  rw [hfind]
  refine ⟨?_, scan_none run runWithStdin F commits, ?_⟩
  · intro pre c post hsplit hpre hc
    rw [hsplit]
    exact scan_first run runWithStdin F pre c post hpre hc
  · intro hempty
    refine ⟨?_, scan_none run runWithStdin F commits⟩
    intro hres c hc hp
    obtain ⟨d, hd, -, hs⟩ := scan_match run runWithStdin F commits c hc hp
    rw [hres] at hs
    have : d = "" := (Except.ok.inj hs).symm
    exact hempty (this ▸ hd)

/-- C7 on the sample graph: `c2` and `c1` both match, the one nearer `HEAD` is returned. -/
theorem find_commit_by_patch_id_witness :
    FindCommitByPatchID demoRun demoRunWithStdin "pX" "HEAD" 0 = .ok "c2" :=
  (find_commit_by_patch_id demoRun demoRunWithStdin "pX" "HEAD" 0 ["c4", "c3", "c2", "c1"]
    (by decide) (by decide)).1 ["c4", "c3"] "c2" ["c1"] rfl (by decide) (by decide)

/-- C8. For the bound 1000 that the recovery scan passes, the argument after `-n` that
`GetAncestors` builds is the one character U+0418, not the decimal text `1000`. -/
theorem get_ancestors_limit_1000 (commit : String) :
    GetAncestors.args commit 1000 = ["rev-list", commit, "-n", "И"] ∧
    GetAncestors.args commit 1000 ≠ ["rev-list", commit, "-n", "1000"] := by
  have h : runeString (toRune 1048) = "И" := by decide
  have hne : ("И" : String) ≠ "1000" := by decide
  have h2 : GetAncestors.args commit 1000 = ["rev-list", commit, "-n", "И"] := by
    simp [GetAncestors.args, h]
  refine ⟨h2, ?_⟩
  rw [h2]
  intro hc
  simp [hne] at hc

/-- For a bound from 1 to 9 the argument after `-n` is the decimal digit of the bound. -/
theorem get_ancestors_args_digit (commit : String) (limit : Int) (h1 : 1 ≤ limit)
    (h9 : limit ≤ 9) :
    GetAncestors.args commit limit = ["rev-list", commit, "-n", toString limit] := by
  have hpos : limit > 0 := by omega
  have hd : runeString (toRune (limit + 48)) = toString limit := by
    interval_cases limit <;> decide
  simp [GetAncestors.args, hpos, hd]

/-- For the bound 0 no `-n` argument is passed. -/
theorem get_ancestors_args_zero (commit : String) :
    GetAncestors.args commit 0 = ["rev-list", commit] := by
  simp [GetAncestors.args]

/-! ## Active filter -/

theorem ActiveForBranch_loop (branch : String) (l result : List Remark) :
    Remarks.ActiveForBranch.loop branch l result =
      result ++ l.filter (fun x => decide (x.State = StateActive ∧ x.Branch = branch)) := by
  induction l generalizing result with
  | nil => simp [Remarks.ActiveForBranch.loop]
  | cons x rest ih =>
    unfold Remarks.ActiveForBranch.loop
    by_cases h : x.State = StateActive ∧ x.Branch = branch
    · rw [if_pos h, ih, List.filter_cons_of_pos (by simpa using h)]
      simp
    · rw [if_neg h, ih, List.filter_cons_of_neg (by simpa using h)]

/-- C9. `ActiveForBranch b` is the filter of the collection by `State == active` and
`Branch == b`: a sub-sequence in the original order, holding exactly the remarks that satisfy
the test, each as many times as the collection holds it.  The method assigns nothing to its
receiver, so the collection itself is not among its results. -/
theorem active_for_branch (r : Remarks) (b : String) :
    r.ActiveForBranch b
      = r.items.filter (fun x => decide (x.State = StateActive ∧ x.Branch = b)) ∧
    (r.ActiveForBranch b).Sublist r.items ∧
    (∀ x, x ∈ r.ActiveForBranch b ↔ x ∈ r.items ∧ x.State = StateActive ∧ x.Branch = b) ∧
    (∀ x, x.State = StateActive → x.Branch = b →
      (r.ActiveForBranch b).count x = r.items.count x) := by
  have h : r.ActiveForBranch b
      = r.items.filter (fun x => decide (x.State = StateActive ∧ x.Branch = b)) := by
    simp [Remarks.ActiveForBranch, ActiveForBranch_loop]
  refine ⟨h, ?_, ?_, ?_⟩
  · rw [h]; exact List.filter_sublist _
  · intro x; rw [h]; simp [List.mem_filter]
  · intro x hs hb
    rw [h, List.count_filter]
    simp [hs, hb]

/-! ## Empty collections are never persisted -/

theorem containsChars_append_left (sub pre s : List Char) (h : containsChars sub s = true) :
    containsChars sub (pre ++ s) = true := by
  induction pre with
  | nil => simpa using h
  | cons c rest ih =>
    cases hs : rest ++ s with
    | nil =>
      have : s = [] := by
        have := congrArg List.length hs
        simp at this
        exact this.2
      subst this
      rw [hs] at ih
      simp only [List.cons_append, hs]
      cases sub with
      | nil => simp [containsChars]
      | cons a l => simp [containsChars] at ih
    | cons d l =>
      rw [hs] at ih
      simp only [List.cons_append, hs]
      rw [containsChars, ih]
      simp

theorem saysNoNote_of_stderr (args : List String) (stderr err : String)
    (h1 : TrimSpace stderr ≠ "") (h2 : saysNoNote (TrimSpace stderr) = true) :
    saysNoNote (runError args stderr err) = true := by
  unfold runError
  rw [if_pos h1]
  unfold saysNoNote Contains ToLower at *
  simp only [String.data_append, List.map_append]
  exact containsChars_append_left _ _ _ h2

theorem dropWhile_append_all (p : Char → Bool) (l1 l2 : List Char) (h : ∀ a ∈ l1, p a = true) :
    (l1 ++ l2).dropWhile p = l2.dropWhile p := by
  induction l1 with
  | nil => rfl
  | cons a rest ih =>
    rw [List.cons_append, List.dropWhile_cons, if_pos (h a (List.mem_cons_self _ _))]
    exact ih (fun x hx => h x (List.mem_cons_of_mem _ hx))

theorem TrimSpace_core (c : Char) (ws : List Char) (X : List Char)
    (hX1 : ∃ t, X = c :: t) (hX2 : ∃ i d, X = i ++ [d] ∧ isSpace d = false)
    (hc : isSpace c = false) (hws : ∀ a ∈ ws, isSpace a = true) :
    TrimSpace ⟨X ++ ws⟩ = ⟨X⟩ := by
  obtain ⟨t, ht⟩ := hX1
  obtain ⟨i, d, hi, hd⟩ := hX2
  unfold TrimSpace
  simp only
  have h1 : (X ++ ws).dropWhile isSpace = X ++ ws := by
    rw [ht, List.cons_append, List.dropWhile_cons, if_neg (by simp [hc])]
  rw [h1, List.reverse_append, dropWhile_append_all _ _ _ (fun a ha => hws a (by simpa using ha))]
  have h2 : X.reverse.dropWhile isSpace = X.reverse := by
    rw [hi, List.reverse_append]
    simp [List.dropWhile_cons, hd]
  rw [h2, List.reverse_reverse]

theorem containsChars_nil (t : List Char) : containsChars [] t = true := by
  cases t with
  | nil => rfl
  | cons c cs => simp [containsChars]

theorem containsChars_append_right (sub s t : List Char) (h : containsChars sub s = true) :
    containsChars sub (s ++ t) = true := by
  induction s with
  | nil =>
    have : sub = [] := by simpa [containsChars] using h
    rw [this]
    exact containsChars_nil _
  | cons c cs ih =>
    rw [containsChars, Bool.or_eq_true] at h
    rw [List.cons_append, containsChars, Bool.or_eq_true]
    rcases h with h | h
    · left
      rw [List.isPrefixOf_iff_prefix] at h ⊢
      exact h.trans (List.prefix_append (c :: cs) t)
    · exact Or.inr (ih h)

/-- The complaint of `git notes show` about a missing note, trimmed, carries the words
`Get` looks for. -/
theorem show_complaint (c : String) :
    TrimSpace ("error: no note found for object " ++ c ++ ".\n") ≠ "" ∧
    saysNoNote (TrimSpace ("error: no note found for object " ++ c ++ ".\n")) = true := by
  have ht : TrimSpace ("error: no note found for object " ++ c ++ ".\n")
      = ⟨"error: no note found for object ".data ++ c.data ++ ['.']⟩ := by
    have h0 : "error: no note found for object " ++ c ++ ".\n"
        = ⟨("error: no note found for object ".data ++ c.data ++ ['.']) ++ ['\n']⟩ := by
      apply String.ext
      simp [String.data_append]
    rw [h0]
    exact TrimSpace_core 'e' ['\n'] _ ⟨_, rfl⟩ ⟨_, '.', rfl, by decide⟩ (by decide)
      (by intro a ha; simp at ha; subst ha; decide)
  rw [ht]
  constructor
  · intro h
    have := congrArg String.data h
    simp at this
  · unfold saysNoNote Contains ToLower
    simp only [List.map_append, List.append_assoc]
    exact containsChars_append_right _ _ _ (by decide)

/-- When the complaint of `git notes remove` about a missing note lacks the words `Remove`
looks for, `Remove` of a commit without a note returns the error. -/
theorem Remove_absent_unrecognised (E : Env) (c : String) (w : Repo) (hr : w.NextRuns)
    (hn : noteAt w.notes c = none)
    (hs : saysNoNote (runError (removeArgs c) (E.removeMissing c) "exit status 1") = false) :
    (Store.Remove E c w).1 = .error (runError (removeArgs c) (E.removeMissing c) "exit status 1") := by
  rw [Remove_absent E c w hr hn]
  simp [hs]

theorem Sound.drop (E : Env) (n : List (String × String)) (c : String) (h : Sound E n) :
    Sound E (dropNote n c) := by
  intro c1 text hn
  by_cases hc : c1 = c
  · subst hc
    rw [noteAt_dropNote_self] at hn
    exact Option.noConfusion hn
  · rw [noteAt_dropNote_ne _ _ _ hc] at hn
    exact h c1 text hn

theorem Sound.write (E : Env) (n : List (String × String)) (c data : String) (h : Sound E n)
    (hd : ParseRemarks E (TrimSpace (stripspace data)) ≠ .ok ⟨[]⟩) :
    Sound E (addNote n c data) := by
  intro c1 text hn
  by_cases hc : c1 = c
  · subst hc
    rw [noteAt_addNote_self _ _ _ (stripspace_ne_of_reads E data hd)] at hn
    cases hn
    exact hd
  · rw [noteAt_addNote_ne _ _ _ _ hc] at hn
    exact h c1 text hn

theorem Remove_notes (E : Env) (c : String) (w : Repo) :
    (Store.Remove E c w).2.notes = w.notes ∨ (Store.Remove E c w).2.notes = dropNote w.notes c := by
  rcases w.nextRuns_or_fault with hn | ⟨f, hf⟩
  · cases hnote : noteAt w.notes c with
    | none => rw [Remove_absent E c w hn hnote]; exact Or.inl rfl
    | some text => rw [Remove_present E c text w hn hnote]; exact Or.inr rfl
  · rw [Remove_fault E c w f hf]; exact Or.inl rfl

theorem Sound.get (E : Env) (c : String) (w : Repo) (h : Sound E w.notes) :
    Sound E (Store.Get E c w).2.notes := by
  rw [Get_snd]; exact h

theorem Sound.remove (E : Env) (c : String) (w : Repo) (h : Sound E w.notes) :
    Sound E (Store.Remove E c w).2.notes := by
  rcases Remove_notes E c w with h1 | h1 <;> rw [h1]
  · exact h
  · exact h.drop E _ c

theorem Sound.save (E : Env)
    (hyaml : ∀ r data, r.items ≠ [] → E.marshal r = .ok data →
      ParseRemarks E (TrimSpace (stripspace data)) ≠ .ok ⟨[]⟩)
    (c : String) (r : Remarks) (w : Repo) (h : Sound E w.notes) :
    Sound E (Store.Save E c r w).2.notes := by
  by_cases hr : r.items = []
  · rw [Save_empty E c r w hr]
    exact Sound.remove E c w h
  · cases hm : E.marshal r with
    | error e => rw [Save_unserialisable E c r w e hr hm]; exact h
    | ok data =>
      rcases w.nextRuns_or_fault with hn | ⟨f, hf⟩
      · rw [Save_runs E c r w data hr hm hn]
        exact h.write E _ c data (hyaml r data hr hm)
      · rw [Save_fault E c r w data f hr hm hf]; exact h

theorem Sound.add (E : Env)
    (hyaml : ∀ r data, r.items ≠ [] → E.marshal r = .ok data →
      ParseRemarks E (TrimSpace (stripspace data)) ≠ .ok ⟨[]⟩)
    (c : String) (r : Remark) (w : Repo) (h : Sound E w.notes) :
    Sound E (Store.Add E c r w).2.notes := by
  unfold Store.Add
  have hg := Sound.get E c w h
  rcases hget : Store.Get E c w with ⟨res, w1⟩
  rw [hget] at hg
  cases res with
  | error e => exact hg
  | ok remarks => exact Sound.save E hyaml c _ w1 hg

theorem Sound.resolve (E : Env)
    (hyaml : ∀ r data, r.items ≠ [] → E.marshal r = .ok data →
      ParseRemarks E (TrimSpace (stripspace data)) ≠ .ok ⟨[]⟩)
    (c id : String) (w : Repo) (h : Sound E w.notes) :
    Sound E (Store.Resolve E c id w).2.notes := by
  unfold Store.Resolve
  have hg := Sound.get E c w h
  rcases hget : Store.Get E c w with ⟨res, w1⟩
  rw [hget] at hg
  cases res with
  | error e => exact hg
  | ok remarks =>
    simp only
    rcases hrm : remarks.RemoveByID id with ⟨remarks1, found⟩
    cases found with
    | false => exact hg
    | true =>
      simp only
      exact Sound.save E hyaml c remarks1 w1 hg

theorem Sound.update (E : Env)
    (hyaml : ∀ r data, r.items ≠ [] → E.marshal r = .ok data →
      ParseRemarks E (TrimSpace (stripspace data)) ≠ .ok ⟨[]⟩)
    (c : String) (r : Remark) (w : Repo) (h : Sound E w.notes) :
    Sound E (Store.UpdateRemark E c r w).2.notes := by
  unfold Store.UpdateRemark
  have hg := Sound.get E c w h
  rcases hget : Store.Get E c w with ⟨res, w1⟩
  rw [hget] at hg
  cases res with
  | error e => exact hg
  | ok remarks =>
    simp only
    cases remarks.FindByID r.ID with
    | none => exact hg
    | some i => exact Sound.save E hyaml c _ w1 hg

theorem Sound.migrate (E : Env)
    (hyaml : ∀ r data, r.items ≠ [] → E.marshal r = .ok data →
      ParseRemarks E (TrimSpace (stripspace data)) ≠ .ok ⟨[]⟩)
    (a b : String) (w : Repo) (h : Sound E w.notes) :
    Sound E (Store.Migrate E a b w).2.notes := by
  unfold Store.Migrate
  have hg := Sound.get E a w h
  rcases hget : Store.Get E a w with ⟨res, w1⟩
  rw [hget] at hg
  cases res with
  | error e => exact hg
  | ok oldRemarks =>
    simp only
    by_cases he : oldRemarks.IsEmpty = true
    · simp only [he, if_true]; exact hg
    · simp only [he, Bool.false_eq_true, if_false]
      have hg2 := Sound.get E b w1 hg
      rcases hget2 : Store.Get E b w1 with ⟨res2, w2⟩
      rw [hget2] at hg2
      cases res2 with
      | error e => exact hg2
      | ok newRemarks =>
        simp only
        have hs := Sound.save E hyaml b (newRemarks.Merge (some oldRemarks)) w2 hg2
        rcases hsv : Store.Save E b (newRemarks.Merge (some oldRemarks)) w2 with ⟨res3, w3⟩
        rw [hsv] at hs
        cases res3 with
        | error e => exact hs
        | ok u => exact Sound.remove E a w3 hs

theorem Sound.runOps (E : Env)
    (hyaml : ∀ r data, r.items ≠ [] → E.marshal r = .ok data →
      ParseRemarks E (TrimSpace (stripspace data)) ≠ .ok ⟨[]⟩)
    (ops : List Op) (w : Repo) (h : Sound E w.notes) :
    Sound E (runOps E ops w).notes := by
  induction ops generalizing w with
  | nil => exact h
  | cons op rest ih =>
    apply ih
    cases op with
    | save c r => exact Sound.save E hyaml c r w h
    | add c r => exact Sound.add E hyaml c r w h
    | resolve c id => exact Sound.resolve E hyaml c id w h
    | update c r => exact Sound.update E hyaml c r w h
    | migrate a b => exact Sound.migrate E hyaml a b w h

theorem noEmptyRecord_iff_sound (E : Env)
    (hshow : ∀ c, saysNoNote (runError (showArgs c) (E.showMissing c) "exit status 1") = true)
    (w : Repo) : NoEmptyRecord E w ↔ Sound E w.notes := by
  have hr0 : (⟨w.notes, [], []⟩ : Repo).NextRuns := by intro f hf; simp at hf
  constructor
  · intro h c text hn hp
    have := (h c).mp (by rw [collectionAt_present E c text w hn]; exact hp)
    rw [hn] at this
    exact Option.noConfusion this
  · intro h c
    constructor
    · intro hc
      cases hn : noteAt w.notes c with
      | none => rfl
      | some text =>
        rw [collectionAt_present E c text w hn] at hc
        exact absurd hc (h c text hn)
    · intro hn
      unfold collectionAt
      rw [Get_absent E c ⟨w.notes, [], []⟩ hr0 hn]
      simp [hshow c]

/-- The part of claim C10 that holds, and where it stops.  Given that `git` reports a
missing note on `show` in the words `Get` looks for and that the serialiser never writes a
non-empty collection as a text that, as `git` stores it, reads back empty: (1) a `Save` of
an empty collection
whose `git` invocation runs leaves the commit without a note; it returns no error when the
commit had a note, and when it had none it returns no error only if the complaint of
`git notes remove` carries the words `Remove` looks for, and that complaint as an error
otherwise; (2) whatever fails, every sequence of `Save`, `Add`, `Resolve`, `UpdateRemark` and
`Migrate` calls keeps the property that a commit reads as the empty collection exactly when
it carries no note. -/
theorem never_persists_empty (E : Env)
    (hshow : ∀ c, saysNoNote (runError (showArgs c) (E.showMissing c) "exit status 1") = true)
    (hyaml : ∀ r data, r.items ≠ [] → E.marshal r = .ok data →
      ParseRemarks E (TrimSpace (stripspace data)) ≠ .ok ⟨[]⟩) :
    (∀ (w : Repo) (c : String) (r : Remarks), r.items = [] → w.NextRuns →
      noteAt (Store.Save E c r w).2.notes c = none ∧
      (noteAt w.notes c ≠ none → (Store.Save E c r w).1 = .ok ()) ∧
      (noteAt w.notes c = none → (Store.Save E c r w).1 =
        if saysNoNote (runError (removeArgs c) (E.removeMissing c) "exit status 1") then .ok ()
        else .error (runError (removeArgs c) (E.removeMissing c) "exit status 1"))) ∧
    (∀ (w : Repo) (ops : List Op), NoEmptyRecord E w → NoEmptyRecord E (runOps E ops w)) := by
  constructor
  · intro w c r hr hn
    rw [Save_empty E c r w hr]
    cases hnote : noteAt w.notes c with
    | none =>
      rw [Remove_absent E c w hn hnote]
      exact ⟨hnote, fun h => absurd rfl h, fun _ => rfl⟩
    | some text =>
      rw [Remove_present E c text w hn hnote]
      exact ⟨noteAt_dropNote_self _ _, fun _ => rfl, fun h => Option.noConfusion h⟩
  · intro w ops h
    rw [noEmptyRecord_iff_sound E hshow] at h ⊢
    exact Sound.runOps E hyaml ops w h

/-- The invariant at the sample repository: after a migration, a resolve and a save of the
empty collection, a commit reads as the empty collection exactly when it carries no note. -/
theorem never_persists_empty_witness :
    noteAt (Store.Save demoEnv "c1" ⟨[]⟩ demoRepo).2.notes "c1" = none ∧
    NoEmptyRecord demoEnv (runOps demoEnv
      [.migrate "c1" "c2", .resolve "c2" "e5f6a7b8", .save "c2" ⟨[]⟩] demoRepo) :=
  have hshow : ∀ c, saysNoNote
      (runError (showArgs c) (demoEnv.showMissing c) "exit status 1") = true :=
    fun c => saysNoNote_of_stderr (showArgs c) _ "exit status 1" (show_complaint c).1
      (show_complaint c).2
  have h := never_persists_empty demoEnv hshow
    (by
      intro r data hne hm
      simp only [demoEnv] at hm
      split_ifs at hm <;> (cases hm; decide))
  ⟨(h.1 demoRepo "c1" ⟨[]⟩ rfl (by intro f hf; simp [demoRepo] at hf)).1,
   h.2 demoRepo _ (by
    intro c
    by_cases h1 : c = "c1"
    · subst h1; decide
    · by_cases h2 : c = "c2"
      · subst h2; decide
      · have hn : noteAt demoRepo.notes c = none := by
          simp [demoRepo, noteAt, Ne.symm h1, Ne.symm h2]
        have hr0 : (⟨demoRepo.notes, [], []⟩ : Repo).NextRuns := by intro f hf; simp at hf
        constructor
        · intro _; exact hn
        · intro _
          unfold collectionAt
          rw [Get_absent demoEnv c ⟨demoRepo.notes, [], []⟩ hr0 hn, if_pos (hshow c)])⟩

/-- Claim C10 fails on the code in its clause `succeeds even when none existed before`.  The
commit `c3` of the sample repository has no note; `git notes remove` then complains in the
words `Object c3 has no note`, which lack the `no note found` that `Remove` looks for, so
`Remove`, and with it `Save` of the empty collection, returns the complaint as an error,
while `Get`, whose test is the same, does recognise the complaint of `git notes show`. -/
theorem save_empty_without_note_fails :
    noteAt demoRepo.notes "c3" = none ∧
    (Store.Save demoEnv "c3" ⟨[]⟩ demoRepo).1
      = .error "git notes --ref=remarks remove c3: Object c3 has no note" ∧
    (Store.Remove demoEnv "c3" demoRepo).1
      = .error "git notes --ref=remarks remove c3: Object c3 has no note" ∧
    (Store.Get demoEnv "c3" demoRepo).1 = .ok ⟨[]⟩ := by
  decide

/-! ## Resolve and update -/

theorem RemoveByID_loop_none (r : Remarks) (id : String) (xs : List Remark) (i : Nat)
    (h : ∀ y ∈ xs, y.ID ≠ id) : Remarks.RemoveByID.loop r id xs i = (r, false) := by
  induction xs generalizing i with
  | nil => rfl
  | cons x rest ih =>
    unfold Remarks.RemoveByID.loop
    rw [if_neg (h x (List.mem_cons_self _ _))]
    exact ih (i + 1) (fun y hy => h y (List.mem_cons_of_mem _ hy))

theorem RemoveByID_loop_first (r : Remarks) (id : String) (done pre post : List Remark)
    (x : Remark) (hr : r.items = done ++ (pre ++ x :: post))
    (hpre : ∀ y ∈ pre, y.ID ≠ id) (hx : x.ID = id) :
    Remarks.RemoveByID.loop r id (pre ++ x :: post) done.length
      = (⟨done ++ pre ++ post⟩, true) := by
  induction pre generalizing done with
  | nil =>
    simp only [List.nil_append] at hr ⊢
    unfold Remarks.RemoveByID.loop
    rw [if_pos hx, hr]
    simp
  | cons p rest ih =>
    rw [List.cons_append]
    unfold Remarks.RemoveByID.loop
    rw [if_neg (hpre p (List.mem_cons_self _ _))]
    have := ih (done ++ [p]) (by simpa using hr) (fun y hy => hpre y (List.mem_cons_of_mem _ hy))
    simpa using this

theorem RemoveByID_absent (r : Remarks) (id : String) (h : ∀ y ∈ r.items, y.ID ≠ id) :
    r.RemoveByID id = (r, false) :=
  RemoveByID_loop_none r id r.items 0 h

theorem RemoveByID_first (r : Remarks) (id : String) (pre post : List Remark) (x : Remark)
    (hr : r.items = pre ++ x :: post) (hpre : ∀ y ∈ pre, y.ID ≠ id) (hx : x.ID = id) :
    r.RemoveByID id = (⟨pre ++ post⟩, true) := by
  have := RemoveByID_loop_first r id [] pre post x (by simpa using hr) hpre hx
  unfold Remarks.RemoveByID
  rw [hr]
  simpa using this

theorem FindByID_loop_none (id : String) (xs : List Remark) (i : Nat)
    (h : ∀ y ∈ xs, y.ID ≠ id) : Remarks.FindByID.loop id xs i = none := by
  induction xs generalizing i with
  | nil => rfl
  | cons x rest ih =>
    unfold Remarks.FindByID.loop
    rw [if_neg (h x (List.mem_cons_self _ _))]
    exact ih (i + 1) (fun y hy => h y (List.mem_cons_of_mem _ hy))

theorem FindByID_absent (r : Remarks) (id : String) (h : ∀ y ∈ r.items, y.ID ≠ id) :
    r.FindByID id = none :=
  FindByID_loop_none id r.items 0 h

theorem Get_eq_of_fst (E : Env) (c : String) (w : Repo) (res : Except String Remarks)
    (h : (Store.Get E c w).1 = res) :
    Store.Get E c w = (res, w.after (showArgs c) w.notes) := by
  rw [← h, ← Get_snd E c w]

theorem RemoveByID_present (C : List Remark) (id : String) (h : ∃ x ∈ C, x.ID = id) :
    (⟨C⟩ : Remarks).RemoveByID id = (⟨withoutFirst C id⟩, true) ∧
    ∃ pre x post, C = pre ++ x :: post ∧ (∀ y ∈ pre, y.ID ≠ id) ∧ x.ID = id ∧
      withoutFirst C id = pre ++ post := by
  obtain ⟨x, hx, hxid⟩ := h
  obtain ⟨a, l₁, l₂, h1, h2, h3, h4⟩ :=
    List.exists_of_eraseP (p := fun y => decide (y.ID = id)) hx (by simpa using hxid)
  have hpre : ∀ y ∈ l₁, y.ID ≠ id := fun y hy => by simpa using h1 y hy
  have ha : a.ID = id := by simpa using h2
  refine ⟨?_, l₁, a, l₂, h3, hpre, ha, h4⟩
  rw [RemoveByID_first ⟨C⟩ id l₁ l₂ a h3 hpre ha]
  unfold withoutFirst
  rw [h4]

/-- Claim C11. When the collection `Store.Get` reads at a node has no entry with the id asked
for, `Store.Resolve` returns `false` with no error, its only `git` invocation is the read
`notes show` (no `add`, no `remove`), the notes are unchanged, and so every commit reads the
same collection as before. -/
theorem resolve_not_found (E : Env) (w : Repo) (node id : String) (C : List Remark)
    (hC : (Store.Get E node w).1 = .ok ⟨C⟩) (hno : ∀ x ∈ C, x.ID ≠ id) :
    (Store.Resolve E node id w).1 = (false, .ok ()) ∧
    (Store.Resolve E node id w).2.trace = w.trace ++ [showArgs node] ∧
    (Store.Resolve E node id w).2.notes = w.notes ∧
    ∀ c, collectionAt E (Store.Resolve E node id w).2 c = collectionAt E w c := by
  have h : Store.Resolve E node id w = ((false, .ok ()), w.after (showArgs node) w.notes) := by
    unfold Store.Resolve
    rw [Get_eq_of_fst E node w _ hC]
    simp only [RemoveByID_absent ⟨C⟩ id hno]
  rw [h]
  exact ⟨rfl, rfl, rfl, fun c => collectionAt_congr E c w _ rfl⟩

/-- C11 at a sample repository where `c2` carries two remarks, none with the id asked for. -/
theorem resolve_not_found_witness :
    (Store.Resolve demoEnv "c2" "00000000" demoRepoPair).1 = (false, .ok ()) ∧
    (Store.Resolve demoEnv "c2" "00000000" demoRepoPair).2.trace
      = demoRepoPair.trace ++ [showArgs "c2"] ∧
    (Store.Resolve demoEnv "c2" "00000000" demoRepoPair).2.notes = demoRepoPair.notes ∧
    ∀ c, collectionAt demoEnv (Store.Resolve demoEnv "c2" "00000000" demoRepoPair).2 c
      = collectionAt demoEnv demoRepoPair c :=
  resolve_not_found demoEnv demoRepoPair "c2" "00000000" [remarkB, remarkA]
    (by decide) (by decide)

/-- Claim C12. When the collection `C` read at a node has an entry with the id asked for, the
write that follows the read is not planned to fail, and the serialiser reads back what it
wrote from the text as `git` stores it, `Store.Resolve` returns `true` with no error; `C`
splits as `pre ++ x :: post` with `x`
the first entry carrying the id, and what is persisted is `pre ++ post`, of length
`|C| - 1`: the node reads that collection when it is not empty and has no note at all when it
is empty; and when the ids of `C` are pairwise distinct, `FindByID` finds the id nowhere in
the result. -/
theorem resolve_found (E : Env) (w : Repo) (node id : String) (C : List Remark)
    (hC : (Store.Get E node w).1 = .ok ⟨C⟩) (hmem : ∃ x ∈ C, x.ID = id)
    (hnext : (Store.Get E node w).2.NextRuns)
    (hser : withoutFirst C id ≠ [] → ∃ data, E.marshal ⟨withoutFirst C id⟩ = .ok data ∧
      ParseRemarks E (TrimSpace (stripspace data)) = .ok ⟨withoutFirst C id⟩) :
    (Store.Resolve E node id w).1 = (true, .ok ()) ∧
    (∃ pre x post, C = pre ++ x :: post ∧ (∀ y ∈ pre, y.ID ≠ id) ∧ x.ID = id ∧
      withoutFirst C id = pre ++ post) ∧
    (withoutFirst C id).length = C.length - 1 ∧
    (withoutFirst C id ≠ [] →
      collectionAt E (Store.Resolve E node id w).2 node = .ok ⟨withoutFirst C id⟩) ∧
    (withoutFirst C id = [] → noteAt (Store.Resolve E node id w).2.notes node = none) ∧
    ((C.map (fun y => y.ID)).Nodup → Remarks.FindByID ⟨withoutFirst C id⟩ id = none) := by
  obtain ⟨hrm, pre, x, post, hsplit, hpre, hx, hD⟩ := RemoveByID_present C id hmem
  have hCne : (⟨C⟩ : Remarks).items ≠ [] := by
    obtain ⟨y, hy, -⟩ := hmem
    exact List.ne_nil_of_mem hy
  obtain ⟨-, hcol⟩ := Get_ok_nonempty E node w ⟨C⟩ hC hCne
  obtain ⟨text, hnote, -⟩ := collectionAt_nonempty E node w ⟨C⟩ hcol hCne
  have hget := Get_eq_of_fst E node w _ hC
  rw [hget] at hnext
  have hnext1 : (w.after (showArgs node) w.notes).NextRuns := hnext
  have hlen : (withoutFirst C id).length = C.length - 1 := by
    rw [hD, hsplit]; simp
  have hfind : (C.map (fun y => y.ID)).Nodup → Remarks.FindByID ⟨withoutFirst C id⟩ id = none := by
    intro hnd
    apply FindByID_absent
    intro y hy hyid
    rw [hD] at hy
    rw [hsplit] at hnd
    simp only [List.map_append, List.map_cons] at hnd
    rcases List.mem_append.mp hy with h1 | h1
    · exact hpre y h1 hyid
    · have hnd2 := (List.nodup_append.mp hnd).2.1
      have := (List.nodup_cons.mp hnd2).1
      apply this
      rw [hx, ← hyid]
      exact List.mem_map_of_mem _ h1
  by_cases hE : withoutFirst C id = []
  · have hres : Store.Resolve E node id w = ((true, .ok ()),
        (w.after (showArgs node) w.notes).after (removeArgs node) (dropNote w.notes node)) := by
      unfold Store.Resolve
      rw [hget]
      simp only [hrm]
      rw [Save_empty E node ⟨withoutFirst C id⟩ _ hE, Remove_present E node text _ hnext1 hnote]
      rfl
    rw [hres]
    refine ⟨rfl, ⟨pre, x, post, hsplit, hpre, hx, hD⟩, hlen, fun h => absurd hE h, fun _ => ?_,
      hfind⟩
    exact noteAt_dropNote_self _ _
  · obtain ⟨data, hm, hp⟩ := hser hE
    have hres : Store.Resolve E node id w = ((true, .ok ()),
        (w.after (showArgs node) w.notes).after (addArgs node) (addNote w.notes node data)) := by
      unfold Store.Resolve
      rw [hget]
      simp only [hrm]
      rw [Save_runs E node ⟨withoutFirst C id⟩ _ data hE hm hnext1]
      rfl
    rw [hres]
    refine ⟨rfl, ⟨pre, x, post, hsplit, hpre, hx, hD⟩, hlen, fun _ => ?_, fun h => absurd h hE,
      hfind⟩
    rw [collectionAt_present E node (stripspace data) _ (noteAt_addNote_self _ _ _
      (stripspace_ne_of_reads_ok E data ⟨withoutFirst C id⟩ hE hp))]
    exact hp

/-- C12 at the sample repository with two remarks on `c2`: the first is resolved. -/
theorem resolve_found_witness :
    ((Store.Resolve demoEnv "c2" "e5f6a7b8" demoRepoPair).1 = (true, .ok ()) ∧
      collectionAt demoEnv (Store.Resolve demoEnv "c2" "e5f6a7b8" demoRepoPair).2 "c2"
        = .ok ⟨[remarkA]⟩) ∧
    ((Store.Resolve demoEnv "c1" "a1b2c3d4" demoRepo).1 = (true, .ok ()) ∧
      noteAt (Store.Resolve demoEnv "c1" "a1b2c3d4" demoRepo).2.notes "c1" = none) :=
  have h := resolve_found demoEnv demoRepoPair "c2" "e5f6a7b8" [remarkB, remarkA]
    (by decide) ⟨remarkB, by decide, by decide⟩
    (by rw [Get_snd]; intro f hf; simp [Repo.after, demoRepoPair] at hf)
    (fun _ => ⟨"remarks: [A]\n", by decide, by decide⟩)
  have h1 := resolve_found demoEnv demoRepo "c1" "a1b2c3d4" [remarkA]
    (by decide) ⟨remarkA, by decide, by decide⟩
    (by rw [Get_snd]; intro f hf; simp [Repo.after, demoRepo] at hf)
    (fun hne => absurd (by decide) hne)
  ⟨⟨h.1, h.2.2.2.1 (by decide)⟩, ⟨h1.1, h1.2.2.2.2.1 (by decide)⟩⟩

theorem loop_skip (E : Env) (line : String) (rest : List String) (n : Nat)
    (out : List String) (w : Repo) (h : wellFormed line = false) :
    runMigrateRewrites.loop E (line :: rest) n out w = runMigrateRewrites.loop E rest n out w := by
  unfold wellFormed at h
  cases hF : Fields line with
  | nil => simp [runMigrateRewrites.loop, hF]
  | cons a t =>
    cases t with
    | nil => simp [runMigrateRewrites.loop, hF]
    | cons b t2 => simp [hF] at h

theorem loop_filter (E : Env) (lines : List String) (n : Nat) (out : List String) (w : Repo) :
    runMigrateRewrites.loop E lines n out w
      = runMigrateRewrites.loop E (lines.filter wellFormed) n out w := by
  induction lines generalizing n out w with
  | nil => rfl
  | cons line rest ih =>
    by_cases hwf : wellFormed line = true
    · rw [List.filter_cons_of_pos hwf]
      cases hF : Fields line with
      | nil => simp [wellFormed, hF] at hwf
      | cons a t =>
        cases t with
        | nil => simp [wellFormed, hF] at hwf
        | cons b t2 =>
          simp only [runMigrateRewrites.loop, hF]
          rcases Store.Get E a w with ⟨_ | oldRemarks, w1⟩
          · exact ih _ _ _
          · simp only
            by_cases he : oldRemarks.IsEmpty = true
            · simp only [he, if_true]; exact ih _ _ _
            · simp only [he, Bool.false_eq_true, if_false]
              rcases Store.Migrate E a b w1 with ⟨err | _, w2⟩
              · simp only
                cases sliceTo a 7 <;> cases sliceTo b 7 <;> first | rfl | exact ih _ _ _
              · exact ih _ _ _
    · have hwf' : wellFormed line = false := by simpa using hwf
      rw [List.filter_cons_of_neg hwf, loop_skip E line rest n out w hwf']
      exact ih _ _ _

theorem loop_migrates (E : Env) (line : String) (rest : List String) (n : Nat)
    (out : List String) (w : Repo) (old new : String) (more : List String)
    (S T : List Remark) (data : String)
    (hF : Fields line = old :: new :: more) (hne : old ≠ new) (hw : w.Normal)
    (hS : collectionAt E w old = .ok ⟨S⟩) (hSne : S ≠ [])
    (hT : collectionAt E w new = .ok ⟨T⟩) (hm : E.marshal ⟨T ++ S⟩ = .ok data)
    (hp : ParseRemarks E (TrimSpace (stripspace data)) = .ok ⟨T ++ S⟩) :
    ∃ w1, runMigrateRewrites.loop E (line :: rest) n out w
        = runMigrateRewrites.loop E rest (n + 1) (out ++ [migratedLine S.length old new]) w1 ∧
      w1.Normal ∧ collectionAt E w1 new = .ok ⟨T ++ S⟩ ∧ noteAt w1.notes old = none ∧
      ∀ c, c ≠ old → c ≠ new → noteAt w1.notes c = noteAt w.notes c := by
  have hw0 := hw.after (showArgs old) w.notes
  have hS0 : collectionAt E (w.after (showArgs old) w.notes) old = .ok ⟨S⟩ := by
    rw [collectionAt_congr E old w (w.after (showArgs old) w.notes) rfl]; exact hS
  have hT0 : collectionAt E (w.after (showArgs old) w.notes) new = .ok ⟨T⟩ := by
    rw [collectionAt_congr E new w (w.after (showArgs old) w.notes) rfl]; exact hT
  have hmig := Migrate_runs E _ old new S T data hne hw0 hS0 hSne hT0 hm
  simp only [Repo.after_notes] at hmig
  refine ⟨((((w.after (showArgs old) w.notes).after (showArgs old) w.notes).after
    (showArgs new) w.notes).after (addArgs new) (addNote w.notes new data)).after
      (removeArgs old) (dropNote (addNote w.notes new data) old), ?eq, ?h1, ?h2, ?h3, ?h4⟩
  case eq =>
    simp only [runMigrateRewrites.loop, hF]
    rw [Get_runs E old w hw.nextRuns, hS]
    simp only [Remarks.IsEmpty, List.length_eq_zero, hSne, decide_False, Bool.false_eq_true,
      if_false]
    rw [hmig]
    exact rfl
  case h1 =>
    exact (((hw0.after (showArgs old) w.notes).after (showArgs new) w.notes).after
      (addArgs new) (addNote w.notes new data)).after (removeArgs old)
        (dropNote (addNote w.notes new data) old)
  case h2 =>
    have hd := stripspace_ne_of_reads_ok E data ⟨T ++ S⟩ (by simp [hSne]) hp
    have hn : noteAt (dropNote (addNote w.notes new data) old) new
        = some (stripspace data) := by
      rw [noteAt_dropNote_ne _ _ _ (Ne.symm hne), noteAt_addNote_self _ _ _ hd]
    rw [collectionAt_present E new (stripspace data) _
      (by simpa [Repo.after_notes] using hn)]
    exact hp
  case h3 =>
    simpa [Repo.after_notes] using noteAt_dropNote_self (addNote w.notes new data) old
  case h4 =>
    intro c hc1 hc2
    simp only [Repo.after_notes]
    rw [noteAt_dropNote_ne _ _ _ hc1, noteAt_addNote_ne _ _ _ _ hc2]

/-- The parts of claim C15 that hold.  The feed is the list of lines the scanner delivers.
(1) A run of `runMigrateRewrites` on a feed equals, in exit, count, output and repository,
the run on the feed with every line of fewer than two fields deleted. (2) One such line is
passed over by the loop with count, output and repository as they were. (3) A line whose
first two fields are `old` and `new`, distinct, with `old` reading a non-empty collection
`S` and `new` reading `T`, no `git` invocation failing and the serialiser reading back what
it wrote from the text as `git` stores it, leaves `new` reading `T ++ S`, `old` without a
note, every other note as it was,
and the loop goes on with the count raised by one and the line `Migrated ...` printed. -/
theorem rewrite_feed (E : Env) :
    (∀ (inside : Bool) (lines : List String) (w : Repo),
      runMigrateRewrites E inside lines w
        = runMigrateRewrites E inside (lines.filter wellFormed) w) ∧
    (∀ (line : String) (rest : List String) (n : Nat) (out : List String) (w : Repo),
      wellFormed line = false →
      runMigrateRewrites.loop E (line :: rest) n out w
        = runMigrateRewrites.loop E rest n out w) ∧
    (∀ (line : String) (rest : List String) (n : Nat) (out : List String) (w : Repo)
      (old new : String) (more : List String) (S T : List Remark) (data : String),
      Fields line = old :: new :: more → old ≠ new → w.Normal →
      collectionAt E w old = .ok ⟨S⟩ → S ≠ [] → collectionAt E w new = .ok ⟨T⟩ →
      E.marshal ⟨T ++ S⟩ = .ok data →
      ParseRemarks E (TrimSpace (stripspace data)) = .ok ⟨T ++ S⟩ →
      ∃ w1, runMigrateRewrites.loop E (line :: rest) n out w
          = runMigrateRewrites.loop E rest (n + 1)
              (out ++ [migratedLine S.length old new]) w1 ∧
        w1.Normal ∧ collectionAt E w1 new = .ok ⟨T ++ S⟩ ∧ noteAt w1.notes old = none ∧
        ∀ c, c ≠ old → c ≠ new → noteAt w1.notes c = noteAt w.notes c) := by
  refine ⟨?_, ?_, ?_⟩
  · intro inside lines w
    unfold runMigrateRewrites
    cases inside with
    | false => rfl
    | true => simpa using loop_filter E lines 0 [] w
  · intro line rest n out w h
    exact loop_skip E line rest n out w h
  · intro line rest n out w old new more S T data hF hne hw hS hSne hT hm hp
    exact loop_migrates E line rest n out w old new more S T data hF hne hw hS hSne hT hm hp

/-- The feed `c1 c3` at the sample repository, where `c1` carries one remark and `c3` none:
`c3` then holds the remark, `c1` none, and the count is 1. -/
theorem rewrite_feed_witness :
    (runMigrateRewrites demoEnv true ["c1 c3"] demoRepo).migratedCount = 1 ∧
    (runMigrateRewrites demoEnv true ["c1 c3"] demoRepo).output
      = ["Migrated 1 remark(s): c1 → c3\n"] ∧
    collectionAt demoEnv (runMigrateRewrites demoEnv true ["c1 c3"] demoRepo).repo "c3"
      = .ok ⟨[remarkA]⟩ ∧
    noteAt (runMigrateRewrites demoEnv true ["c1 c3"] demoRepo).repo.notes "c1" = none := by
  obtain ⟨w1, heq, -, hcol, hnote, -⟩ := (rewrite_feed demoEnv).2.2 "c1 c3" [] 0 []
    demoRepo "c1" "c3" [] [remarkA] [] "remarks: [A]\n" (by decide) (by decide)
    (by intro f hf; simp [demoRepo] at hf) (by decide) (by decide) (by decide) (by decide)
    (by decide)
  have hrun : runMigrateRewrites demoEnv true ["c1 c3"] demoRepo
      = ⟨.returned none, 1, [] ++ [migratedLine 1 "c1" "c3"], w1⟩ := by
    unfold runMigrateRewrites
    simp only [Bool.not_true, Bool.false_eq_true, if_false]
    rw [heq]
    rfl
  rw [hrun]
  exact ⟨rfl, by
    show ([] : List String) ++ [migratedLine 1 "c1" "c3"] = ["Migrated 1 remark(s): c1 → c3\n"]
    decide, hcol, hnote⟩

/-- Claim C15 fails on the code for a line that names one commit twice.  The line `c1 c1`
is well formed and `c1` carries one remark; the run raises the count to 1 and prints
`Migrated 1 remark(s)`, yet `Migrate` has saved the doubled collection under `c1` and then
removed the note of `c1`: the collection is not at the new commit, it is gone. -/
theorem rewrite_feed_same_identity_drops :
    wellFormed "c1 c1" = true ∧
    collectionAt demoEnv demoRepo "c1" = .ok ⟨[remarkA]⟩ ∧
    (runMigrateRewrites demoEnv true ["c1 c1"] demoRepo).exit = .returned none ∧
    (runMigrateRewrites demoEnv true ["c1 c1"] demoRepo).migratedCount = 1 ∧
    (runMigrateRewrites demoEnv true ["c1 c1"] demoRepo).output
      = ["Migrated 1 remark(s): c1 → c1\n"] ∧
    noteAt (runMigrateRewrites demoEnv true ["c1 c1"] demoRepo).repo.notes "c1" = none ∧
    collectionAt demoEnv (runMigrateRewrites demoEnv true ["c1 c1"] demoRepo).repo "c1"
      = .ok ⟨[]⟩ := by
  decide

/-- Claim C19 fails on the code. The line `abc def` has two fields, of three bytes each; in a
repository where `abc` carries a remark and the write of the note fails, `Store.Migrate`
returns an error, the failure path of `runMigrateRewrites` then takes `oldSHA[:7]`, which is
out of range for `abc`, and the run ends in a runtime panic. -/
theorem rewrite_feed_short_identity_panics :
    Fields "abc def" = ["abc", "def"] ∧
    (Store.Migrate demoEnv "abc" "def" (Store.Get demoEnv "abc" demoRepoShort).2).1
      = .error "git notes --ref=remarks add -f -F - def: fatal: unable to write note" ∧
    sliceTo "abc" 7 = none ∧
    (runMigrateRewrites demoEnv true ["abc def"] demoRepoShort).exit = .panicked := by
  decide

/-! ## The editor document -/

theorem splitLoop_append (sep : Char) (a rest cur : List Char) (ha : sep ∉ a) :
    splitLoop sep (a ++ sep :: rest) cur = ⟨cur ++ a⟩ :: splitLoop sep rest [] := by
  induction a generalizing cur with
  | nil => simp [splitLoop]
  | cons c cs ih =>
    have hc : c ≠ sep := fun h => ha (by simp [h])
    have hcs : sep ∉ cs := fun h => ha (List.mem_cons_of_mem _ h)
    rw [List.cons_append, splitLoop, if_neg hc, ih _ hcs]
    simp

theorem Split_line (a s : String) (ha : '\n' ∉ a.data) :
    Split (a ++ "\n" ++ s) '\n' = a :: Split s '\n' := by
  have h := splitLoop_append '\n' a.data s.data [] ha
  unfold Split
  have hd : (a ++ "\n" ++ s).data = a.data ++ '\n' :: s.data := by
    simp [String.data_append]
  rw [hd, h]
  simp

theorem splitLoop_ne_nil (sep : Char) (cs cur : List Char) : splitLoop sep cs cur ≠ [] := by
  induction cs generalizing cur with
  | nil => simp [splitLoop]
  | cons c rest ih =>
    unfold splitLoop
    split
    · simp
    · exact ih _

theorem Join_cons (a : String) (l : List String) (sep : String) (hl : l ≠ []) :
    Join (a :: l) sep = a ++ sep ++ Join l sep := by
  cases l with
  | nil => exact absurd rfl hl
  | cons b rest => rfl

theorem Join_splitLoop (cs cur : List Char) :
    Join (splitLoop '\n' cs cur) "\n" = ⟨cur ++ cs⟩ := by
  induction cs generalizing cur with
  | nil => simp [splitLoop, Join]
  | cons c rest ih =>
    unfold splitLoop
    by_cases hc : c = '\n'
    · rw [if_pos hc, Join_cons _ _ _ (splitLoop_ne_nil _ _ _), ih]
      subst hc
      apply String.ext
      simp [String.data_append]
    · rw [if_neg hc, ih]
      simp

theorem Join_Split (s : String) : Join (Split s '\n') "\n" = s := by
  unfold Split
  rw [Join_splitLoop]
  simp

theorem loop_inBody (lines acc : List String) (t : String) :
    parseEditorContent.loop lines true acc t = (acc ++ lines, t) := by
  induction lines generalizing acc with
  | nil => simp [parseEditorContent.loop]
  | cons l rest ih =>
    rw [parseEditorContent.loop, if_pos rfl, ih]
    simp

theorem loop_comment (line : String) (rest acc : List String) (t : String)
    (h : HasPrefix (TrimSpace line) "#" = true) :
    parseEditorContent.loop (line :: rest) false acc t
      = parseEditorContent.loop rest false acc t := by
  rw [parseEditorContent.loop]
  simp [h]

theorem loop_separator (line : String) (rest acc : List String) (t : String)
    (h : TrimSpace line = "---") :
    parseEditorContent.loop (line :: rest) false acc t
      = parseEditorContent.loop rest true acc t := by
  have h1 : HasPrefix "---" "#" = false := by decide
  have h2 : HasPrefix "---" "type:" = false := by decide
  rw [parseEditorContent.loop]
  simp [h, h1, h2]

theorem loop_other (line : String) (rest acc : List String) (t : String)
    (h : TrimSpace line ≠ "---") :
    ∃ t1, parseEditorContent.loop (line :: rest) false acc t
      = parseEditorContent.loop rest false acc t1 := by
  rw [parseEditorContent.loop]
  simp only [Bool.false_eq_true, if_false]
  split
  · exact ⟨t, rfl⟩
  · split
    · split
      · split
        · exact ⟨_, rfl⟩
        · exact ⟨t, rfl⟩
      · exact ⟨t, rfl⟩
    · exact ⟨t, rfl⟩

theorem loop_before_separator (pre : List String) (sep : String) (post acc : List String)
    (t : String) (hpre : ∀ l ∈ pre, TrimSpace l ≠ "---") (hsep : TrimSpace sep = "---") :
    ∃ t1, parseEditorContent.loop (pre ++ sep :: post) false acc t = (acc ++ post, t1) := by
  induction pre generalizing t with
  | nil =>
    rw [List.nil_append, loop_separator sep post acc t hsep, loop_inBody]
    exact ⟨t, rfl⟩
  | cons l rest ih =>
    obtain ⟨t1, h1⟩ := loop_other l (rest ++ sep :: post) acc t (hpre l (List.mem_cons_self _ _))
    rw [List.cons_append, h1]
    exact ih t1 (fun x hx => hpre x (List.mem_cons_of_mem _ hx))

theorem loop_drop_comment (pre : List String) (c : String) (post acc : List String)
    (t : String) (hpre : ∀ l ∈ pre, TrimSpace l ≠ "---")
    (hc : HasPrefix (TrimSpace c) "#" = true) :
    parseEditorContent.loop (pre ++ c :: post) false acc t
      = parseEditorContent.loop (pre ++ post) false acc t := by
  induction pre generalizing t with
  | nil => rw [List.nil_append, List.nil_append, loop_comment c post acc t hc]
  | cons l rest ih =>
    have hl := hpre l (List.mem_cons_self _ _)
    have hrest : ∀ x ∈ rest, TrimSpace x ≠ "---" := fun x hx => hpre x (List.mem_cons_of_mem _ hx)
    rw [List.cons_append, List.cons_append]
    rw [parseEditorContent.loop, parseEditorContent.loop]
    simp only [Bool.false_eq_true, if_false, if_neg hl]
    split
    · exact ih t hrest
    · split
      · split
        · split
          · exact ih _ hrest
          · exact ih t hrest
        · exact ih t hrest
      · exact ih t hrest

theorem loop_plain (line : String) (rest acc : List String) (t : String)
    (h1 : HasPrefix (TrimSpace line) "#" = false)
    (h2 : HasPrefix (TrimSpace line) "type:" = false) (h3 : TrimSpace line ≠ "---") :
    parseEditorContent.loop (line :: rest) false acc t
      = parseEditorContent.loop rest false acc t := by
  rw [parseEditorContent.loop]
  simp [h1, h2, h3]

theorem loop_type (line p0 p1 : String) (rest acc : List String) (t : String)
    (h1 : HasPrefix (TrimSpace line) "#" = false)
    (h2 : HasPrefix (TrimSpace line) "type:" = true)
    (h3 : SplitN line ':' 2 = [p0, p1]) (h4 : ValidateType (TrimSpace p1) = true) :
    parseEditorContent.loop (line :: rest) false acc t
      = parseEditorContent.loop rest false acc (TrimSpace p1) := by
  rw [parseEditorContent.loop]
  simp [h1, h2, h3, h4]

theorem ValidateType_iff (t : String) :
    ValidateType t = true ↔ t = "thought" ∨ t = "doubt" ∨ t = "todo" ∨ t = "decision" := by
  unfold ValidateType TypeThought TypeDoubt TypeTodo TypeDecision
  constructor
  · intro h
    by_contra hc
    simp [hc] at h
  · intro h
    simp [h]

theorem dropWhile_append_last (p : Char → Bool) (l : List Char) (c : Char) (hc : p c = false) :
    ∃ m, (l ++ [c]).dropWhile p = m ++ [c] := by
  induction l with
  | nil => exact ⟨[], by simp [List.dropWhile, hc]⟩
  | cons a rest ih =>
    rw [List.cons_append, List.dropWhile_cons]
    by_cases ha : p a = true
    · rw [if_pos ha]; exact ih
    · rw [if_neg ha]; exact ⟨a :: rest, rfl⟩

theorem TrimSpace_head (s : String) (c : Char) (tail : List Char) (hs : s.data = c :: tail)
    (hc : isSpace c = false) : ∃ m, (TrimSpace s).data = c :: m := by
  unfold TrimSpace
  rw [hs, List.dropWhile_cons, if_neg (by simp [hc]), List.reverse_cons]
  obtain ⟨m, hm⟩ := dropWhile_append_last isSpace tail.reverse c hc
  rw [hm]
  exact ⟨m.reverse, by simp⟩

theorem comment_of_hash (s : String) (tail : List Char) (hs : s.data = '#' :: tail) :
    HasPrefix (TrimSpace s) "#" = true := by
  obtain ⟨m, hm⟩ := TrimSpace_head s '#' tail hs (by decide)
  unfold HasPrefix
  rw [hm]
  have : ("#" : String).data = ['#'] := by decide
  rw [this]
  simp [List.isPrefixOf]

theorem TrimSpace_newline (b : String) : TrimSpace ("" ++ "\n" ++ b) = TrimSpace b := by
  have hd : ("" ++ "\n" ++ b).data = '\n' :: b.data := by simp [String.data_append]
  unfold TrimSpace
  rw [hd, List.dropWhile_cons, if_pos (by decide)]

theorem header_rest (t : String) (ht : ValidateType t = true) (bl : List String) :
    parseEditorContent.loop ("# Lines starting with # are ignored" :: "" :: ("type: " ++ t)
      :: "" :: "---" :: "" :: bl) false [] "" = ("" :: bl, t) := by
  have hblank1 : HasPrefix (TrimSpace "") "#" = false := by decide
  have hblank2 : HasPrefix (TrimSpace "") "type:" = false := by decide
  have hblank3 : TrimSpace "" ≠ "---" := by decide
  rw [loop_comment _ _ _ _ (by decide), loop_plain _ _ _ _ hblank1 hblank2 hblank3]
  have htype : parseEditorContent.loop (("type: " ++ t) :: "" :: "---" :: "" :: bl) false [] ""
      = parseEditorContent.loop ("" :: "---" :: "" :: bl) false [] t := by
    rcases (ValidateType_iff t).mp ht with h | h | h | h <;> subst h
    · exact loop_type _ "type" " thought" _ _ _ (by decide) (by decide) (by decide) (by decide)
    · exact loop_type _ "type" " doubt" _ _ _ (by decide) (by decide) (by decide) (by decide)
    · exact loop_type _ "type" " todo" _ _ _ (by decide) (by decide) (by decide) (by decide)
    · exact loop_type _ "type" " decision" _ _ _ (by decide) (by decide) (by decide) (by decide)
  rw [htype, loop_plain _ _ _ _ hblank1 hblank2 hblank3, loop_separator _ _ _ _ (by decide),
    loop_inBody]
  simp

theorem no_newline_of_valid (t : String) (ht : ValidateType t = true) : '\n' ∉ t.data := by
  rcases (ValidateType_iff t).mp ht with h | h | h | h <;> subst h <;> decide

theorem parse_lines_of_header (line1 t b content : String) (tail : List Char)
    (h1 : line1.data = '#' :: tail) (hn : '\n' ∉ line1.data) (ht : ValidateType t = true)
    (hc : content = line1 ++ "\n" ++ ("# Lines starting with # are ignored" ++ "\n" ++
      ("" ++ "\n" ++ (("type: " ++ t) ++ "\n" ++ ("" ++ "\n" ++ ("---" ++ "\n" ++
        ("" ++ "\n" ++ b))))))) :
    parseEditorContent content = (TrimSpace b, t) := by
  have hsplit : Split content '\n' = line1 :: "# Lines starting with # are ignored" :: ""
      :: ("type: " ++ t) :: "" :: "---" :: "" :: Split b '\n' := by
    have htl : '\n' ∉ ("type: " ++ t).data := by
      have := no_newline_of_valid t ht
      have h6 : '\n' ∉ ("type: " : String).data := by decide
      simp only [String.data_append, List.mem_append, not_or]
      exact ⟨h6, this⟩
    rw [hc, Split_line _ _ hn, Split_line _ _ (by decide), Split_line _ _ (by decide),
      Split_line _ _ htl, Split_line _ _ (by decide), Split_line _ _ (by decide),
      Split_line _ _ (by decide)]
  unfold parseEditorContent
  rw [hsplit, loop_comment _ _ _ _ (comment_of_hash line1 tail h1), header_rest t ht]
  simp only
  rw [Join_cons _ _ _ (by unfold Split; exact splitLoop_ne_nil _ _ _), Join_Split,
    TrimSpace_newline]

/-- Claim C18. (1) For a valid kind `t`, any body `b`, and a commit and branch without line
feed, `parseEditorContent` of the template `openEditor` writes returns the body `b` trimmed
and the type `t`. (2) The same for the template of `openEditorForEdit`, the id in its header
being without line feed too. (3) A comment line (first non-blank character `#`) standing
before the first `---` line can be deleted without changing what is parsed. (4) The body
parsed is the text of all lines after the first `---` line, joined and trimmed, whatever
those lines start with. -/
theorem editor_round_trip :
    (∀ commit branch t b : String, ValidateType t = true → '\n' ∉ commit.data →
      '\n' ∉ branch.data →
      parseEditorContent (openEditor.template commit branch t b) = (TrimSpace b, t)) ∧
    (∀ (commit : String) (r : Remark), ValidateType r.Typ = true → '\n' ∉ commit.data →
      '\n' ∉ r.ID.data → '\n' ∉ r.Branch.data →
      parseEditorContent (openEditorForEdit.template commit r) = (TrimSpace r.Body, r.Typ)) ∧
    (∀ (content1 content2 : String) (pre post : List String) (c : String),
      (∀ l ∈ pre, TrimSpace l ≠ "---") → HasPrefix (TrimSpace c) "#" = true →
      Split content1 '\n' = pre ++ c :: post → Split content2 '\n' = pre ++ post →
      parseEditorContent content1 = parseEditorContent content2) ∧
    (∀ (content : String) (pre post : List String) (sep : String),
      (∀ l ∈ pre, TrimSpace l ≠ "---") → TrimSpace sep = "---" →
      Split content '\n' = pre ++ sep :: post →
      (parseEditorContent content).1 = TrimSpace (Join post "\n")) := by
  have lit1 : (")\n# Lines starting with # are ignored\n\ntype: " : String)
      = ")" ++ "\n" ++ ("# Lines starting with # are ignored" ++ "\n" ++
        ("" ++ "\n" ++ "type: ")) := by decide
  have lit2 : ("\n\n---\n\n" : String)
      = "\n" ++ ("" ++ "\n" ++ ("---" ++ "\n" ++ ("" ++ "\n"))) := by decide
  refine ⟨?_, ?_, ?_, ?_⟩
  · intro commit branch t b ht hc hb
    refine parse_lines_of_header ("# New remark on " ++ commit ++ " (" ++ branch ++ ")") t b _
      (" New remark on ".data ++ commit.data ++ " (".data ++ branch.data ++ ")".data)
      ?_ ?_ ht ?_
    · have : ("# New remark on " : String).data = '#' :: " New remark on ".data := by decide
      simp [String.data_append, this]
    · have h1 : '\n' ∉ ("# New remark on " : String).data := by decide
      have h2 : '\n' ∉ (" (" : String).data := by decide
      have h3 : '\n' ∉ (")" : String).data := by decide
      simp only [String.data_append, List.mem_append, not_or]
      exact ⟨⟨⟨⟨h1, hc⟩, h2⟩, hb⟩, h3⟩
    · unfold openEditor.template
      rw [lit1, lit2]
      simp only [String.append_assoc]
  · intro commit r ht hc hid hb
    refine parse_lines_of_header
      ("# Editing remark [" ++ r.ID ++ "] on " ++ commit ++ " (" ++ r.Branch ++ ")") r.Typ
      r.Body _
      (" Editing remark [".data ++ r.ID.data ++ "] on ".data ++ commit.data ++ " (".data
        ++ r.Branch.data ++ ")".data) ?_ ?_ ht ?_
    · have : ("# Editing remark [" : String).data = '#' :: " Editing remark [".data := by
        decide
      simp [String.data_append, this]
    · have h1 : '\n' ∉ ("# Editing remark [" : String).data := by decide
      have h2 : '\n' ∉ ("] on " : String).data := by decide
      have h3 : '\n' ∉ (" (" : String).data := by decide
      have h4 : '\n' ∉ (")" : String).data := by decide
      simp only [String.data_append, List.mem_append, not_or]
      exact ⟨⟨⟨⟨⟨⟨h1, hid⟩, h2⟩, hc⟩, h3⟩, hb⟩, h4⟩
    · unfold openEditorForEdit.template
      rw [lit1, lit2]
      simp only [String.append_assoc]
  · intro content1 content2 pre post c hpre hc h1 h2
    unfold parseEditorContent
    rw [h1, h2, loop_drop_comment pre c post [] "" hpre hc]
  · intro content pre post sep hpre hsep h
    obtain ⟨t1, ht1⟩ := loop_before_separator pre sep post [] "" hpre hsep
    unfold parseEditorContent
    rw [h, ht1]
    simp

/-- C18 on a body that has a `#` line and a `---` line of its own. -/
theorem editor_round_trip_witness :
    parseEditorContent
        (openEditor.template "abc1234" "main" "todo" "  fix X\n# kept\n---\nmore  \n")
      = ("fix X\n# kept\n---\nmore", "todo") :=
  (editor_round_trip.1 "abc1234" "main" "todo" "  fix X\n# kept\n---\nmore  \n"
    (by decide) (by decide) (by decide)).trans (by decide)

/-! ## Construction and validation -/

theorem loop_type_valid (lines : List String) (inBody : Bool) (acc : List String) (t : String)
    (ht : t = "" ∨ ValidateType t = true) :
    (parseEditorContent.loop lines inBody acc t).2 = "" ∨
      ValidateType (parseEditorContent.loop lines inBody acc t).2 = true := by
  induction lines generalizing inBody acc t with
  | nil => simpa [parseEditorContent.loop] using ht
  | cons l rest ih =>
    rw [parseEditorContent.loop]
    split
    · exact ih _ _ _ ht
    · split
      · exact ih _ _ _ ht
      · split
        · split
          · split
            · rename_i hv
              exact ih _ _ _ (Or.inr hv)
            · exact ih _ _ _ ht
          · exact ih _ _ _ ht
        · split
          · exact ih _ _ _ ht
          · exact ih _ _ _ ht

theorem parseEditorContent_type (content : String) :
    (parseEditorContent content).2 = "" ∨ ValidateType (parseEditorContent content).2 = true := by
  unfold parseEditorContent
  exact loop_type_valid _ _ _ _ (Or.inl rfl)

theorem prepare_valid (X : AddSession) (addType addBranch : String) (addEdit : Bool)
    (args : List String) (fullSHA : String) (r : Remark)
    (h : runAdd.prepare X addType addBranch addEdit args = .ok (fullSHA, r)) :
    ValidateType r.Typ = true ∧ TrimSpace r.Body ≠ "" ∧ r.State = StateActive := by
  unfold runAdd.prepare at h
  split at h
  · exact Except.noConfusion h
  · split at h
    · exact Except.noConfusion h
    · rename_i hvalid
      have hvalid1 : ValidateType addType = true := by simpa using hvalid
      split at h
      · exact Except.noConfusion h
      · rename_i branch _
        split at h
        rename_i commit body _
        split at h
        · exact Except.noConfusion h
        · rename_i sha _
          simp only at h
          split at h
          · exact Except.noConfusion h
          · rename_i body1 addType1 hed
            split at h
            · exact Except.noConfusion h
            · rename_i hbody
              have hr := (Prod.mk.inj (Except.ok.inj h)).2
              have ht1 : ValidateType addType1 = true := by
                split at hed
                · unfold openEditor at hed
                  split at hed
                  · exact Except.noConfusion hed
                  · rename_i eb et hop
                    split at hop
                    · exact Except.noConfusion hop
                    · rename_i content _
                      have hpe := Except.ok.inj hop
                      have het : et = (parseEditorContent content).2 := by rw [hpe]
                      have h2 := (Prod.mk.inj (Except.ok.inj hed)).2
                      rw [← h2]
                      by_cases hne : et ≠ ""
                      · rw [if_pos hne]
                        rcases parseEditorContent_type content with h3 | h3
                        · exact absurd (het.trans h3) hne
                        · rw [het]; exact h3
                      · rw [if_neg hne]; exact hvalid1
                · have h2 := (Prod.mk.inj (Except.ok.inj hed)).2
                  rw [← h2]; exact hvalid1
              rw [← hr]
              exact ⟨ht1, hbody, rfl⟩

/-- Claim C16 fails as stated: for the kind `bogus`, which `ValidateType` rejects, and a body
that is blank after trimming, `NewRemark` returns a remark all the same. -/
theorem new_remark_accepts_anything :
    ValidateType "bogus" = false ∧ TrimSpace "  " = "" ∧
    NewRemark "0badc0de" 1700000002000000000 "bogus" "main" "  "
      = ⟨"0badc0de", "bogus", "main", "active", 1700000002000000000, "  "⟩ := by
  decide

/-- Claim C16 as amended. `NewRemark` validates nothing: for every kind and body it returns
the remark with that kind and body, in state `active`. `ValidateType` holds exactly of
`thought`, `doubt`, `todo` and `decision`. The validation sits in the `add` command: every
remark `runAdd` constructs has a valid kind and a body that is not blank after trimming, an
invalid `--type` makes `runAdd` return an error with the repository untouched, and so does
every other rejection before the construction (an empty body among them). -/
theorem add_validates (X : AddSession) (E : Env) :
    (∀ (id : String) (now : Int) (k branch b : String),
      NewRemark id now k branch b = ⟨id, k, branch, StateActive, now, b⟩) ∧
    (∀ k, ValidateType k = true ↔ k = "thought" ∨ k = "doubt" ∨ k = "todo" ∨ k = "decision") ∧
    (∀ (addType addBranch : String) (addEdit : Bool) (args : List String) (fullSHA : String)
      (r : Remark), runAdd.prepare X addType addBranch addEdit args = .ok (fullSHA, r) →
      ValidateType r.Typ = true ∧ TrimSpace r.Body ≠ "" ∧ r.State = StateActive) ∧
    (∀ (addType addBranch : String) (addEdit : Bool) (args : List String) (w : Repo),
      ValidateType addType = false →
      ∃ err, runAdd X E addType addBranch addEdit args w = (.error err, w)) ∧
    (∀ (addType addBranch : String) (addEdit : Bool) (args : List String) (w : Repo)
      (err : String), runAdd.prepare X addType addBranch addEdit args = .error err →
      runAdd X E addType addBranch addEdit args w = (.error err, w)) := by
  refine ⟨fun _ _ _ _ _ => rfl, ValidateType_iff, ?_, ?_, ?_⟩
  · intro addType addBranch addEdit args fullSHA r h
    exact prepare_valid X addType addBranch addEdit args fullSHA r h
  · intro addType addBranch addEdit args w hv
    by_cases hin : X.insideWorkTree = true
    · exact ⟨"invalid type: " ++ addType ++ " (must be thought, doubt, todo, or decision)",
        by simp [runAdd, runAdd.prepare, hin, hv]⟩
    · exact ⟨"not a git repository", by simp [runAdd, runAdd.prepare, hin]⟩
  · intro addType addBranch addEdit args w err h
    unfold runAdd
    rw [h]

/-- Claim C16 as amended, at the sample session: the kind `bogus` is refused by the command and
the repository is untouched. -/
theorem add_validates_witness :
    ValidateType "bogus" = false ∧
    ∃ err, runAdd demoSession demoEnv "bogus" "" false ["a note"] demoRepo
      = (.error err, demoRepo) :=
  ⟨by decide,
    (add_validates demoSession demoEnv).2.2.2.1 "bogus" "" false ["a note"] demoRepo
      (by decide)⟩

/-! ## Branch rename -/

end GitRemarks
